import Mathlib

/-!
Verification of the fSocks wire codec (src/fsocks/socks.py) and of the
obfuscation codecs (src/fsocks/fuzzing/codec.py) against the natural
language specification of the repository.

Shallow embedding conventions:
  - a Python bytes value is a `List Nat` whose elements are below 256;
  - a Python str value is a `List Nat` of Unicode code points;
  - the byte-stream collaborator (read_all) is modelled by consuming a
    prefix of a `List Nat` and returning the rest of the stream;
  - a fallible operation returns `Except PyErr` or `Option`; the `PyErr`
    constructors name the Python exception (or exception state) that the
    source raises on that path.
-/

/-- VERSION enum of socks.py (lines 13-16). -/
inductive VERSION where
  | SOCKS4
  | SOCKS5
  deriving DecidableEq

/-- Wire value of a VERSION member. -/
def VERSION.value : VERSION → Nat
  | .SOCKS4 => 0x04
  | .SOCKS5 => 0x05

/-- Conversion of a raw byte to VERSION: `VERSION(x)`; none models the
ValueError Python raises for a byte outside the enumeration. -/
def VERSION.ofValue : Nat → Option VERSION
  | 0x04 => some .SOCKS4
  | 0x05 => some .SOCKS5
  | _ => none

/-- METHOD enum of socks.py (lines 19-24). -/
inductive METHOD where
  | NO_AUTHENTICATION_REQUIRED
  | GSSAPI
  | USERNAME_PASSWORD
  | NO_ACCEPTABLE_METHODS
  deriving DecidableEq

/-- Wire value of a METHOD member. -/
def METHOD.value : METHOD → Nat
  | .NO_AUTHENTICATION_REQUIRED => 0x00
  | .GSSAPI => 0x01
  | .USERNAME_PASSWORD => 0x02
  | .NO_ACCEPTABLE_METHODS => 0xFF

/-- Conversion of a raw byte to METHOD. -/
def METHOD.ofValue : Nat → Option METHOD
  | 0x00 => some .NO_AUTHENTICATION_REQUIRED
  | 0x01 => some .GSSAPI
  | 0x02 => some .USERNAME_PASSWORD
  | 0xFF => some .NO_ACCEPTABLE_METHODS
  | _ => none

/-- CMD enum of socks.py (lines 27-31). -/
inductive CMD where
  | CONNECT
  | BIND
  | UDP
  deriving DecidableEq

/-- Wire value of a CMD member. -/
def CMD.value : CMD → Nat
  | .CONNECT => 0x01
  | .BIND => 0x02
  | .UDP => 0x03

/-- Conversion of a raw byte to CMD. -/
def CMD.ofValue : Nat → Option CMD
  | 0x01 => some .CONNECT
  | 0x02 => some .BIND
  | 0x03 => some .UDP
  | _ => none

/-- ATYPE enum of socks.py (lines 34-38). -/
inductive ATYPE where
  | IPV4
  | DOMAINNAME
  | IPV6
  deriving DecidableEq

/-- Wire value of an ATYPE member. -/
def ATYPE.value : ATYPE → Nat
  | .IPV4 => 0x01
  | .DOMAINNAME => 0x03
  | .IPV6 => 0x04

/-- Conversion of a raw byte to ATYPE. -/
def ATYPE.ofValue : Nat → Option ATYPE
  | 0x01 => some .IPV4
  | 0x03 => some .DOMAINNAME
  | 0x04 => some .IPV6
  | _ => none

/-- REP enum of socks.py (lines 41-51). -/
inductive REP where
  | SUCCEEDED
  | GENERAL_SOCKS_SERVER_FAILURE
  | CONNECTION_NOT_ALLOWED_BY_RULESET
  | NETWORK_UNREACHABLE
  | HOST_UNREACHABLE
  | CONNECTION_REFUSED
  | TTL_EXPIRED
  | COMMAND_NOT_SUPPORTED
  | ADDRESS_TYPE_NOT_SUPPORTED
  deriving DecidableEq

/-- Wire value of a REP member. -/
def REP.value : REP → Nat
  | .SUCCEEDED => 0x00
  | .GENERAL_SOCKS_SERVER_FAILURE => 0x01
  | .CONNECTION_NOT_ALLOWED_BY_RULESET => 0x02
  | .NETWORK_UNREACHABLE => 0x03
  | .HOST_UNREACHABLE => 0x04
  | .CONNECTION_REFUSED => 0x05
  | .TTL_EXPIRED => 0x06
  | .COMMAND_NOT_SUPPORTED => 0x07
  | .ADDRESS_TYPE_NOT_SUPPORTED => 0x08

/-- Conversion of a raw byte to REP. -/
def REP.ofValue : Nat → Option REP
  | 0x00 => some .SUCCEEDED
  | 0x01 => some .GENERAL_SOCKS_SERVER_FAILURE
  | 0x02 => some .CONNECTION_NOT_ALLOWED_BY_RULESET
  | 0x03 => some .NETWORK_UNREACHABLE
  | 0x04 => some .HOST_UNREACHABLE
  | 0x05 => some .CONNECTION_REFUSED
  | 0x06 => some .TTL_EXPIRED
  | 0x07 => some .COMMAND_NOT_SUPPORTED
  | 0x08 => some .ADDRESS_TYPE_NOT_SUPPORTED
  | _ => none

/-- Outcome of a failing Python operation, by exception kind.
`proxyError` is fsocks.socks.ProxyError carrying a REP code;
`valueError` covers ValueError and its subclasses raised by enum
conversion or by ipaddress parsing; `attributeError` is the
AttributeError raised by evaluating e.message on a caught ValueError
under Python 3 (socks.py line 110; ValueError has no message attribute);
`unicodeError` is a UnicodeEncodeError or UnicodeDecodeError from
str.encode / bytes.decode; `structError` is struct.error from packing a
field value that does not fit the format; `assertionError` is a failing
assert statement; `shortRead` is the failure of the stream collaborator
read_all when fewer bytes than requested are available. -/
inductive PyErr where
  | proxyError (code : REP)
  | valueError
  | attributeError
  | unicodeError
  | structError
  | assertionError
  | shortRead
  deriving DecidableEq

/-- Model of the byte-stream collaborator: stream.read_all n consumes
exactly n bytes from the front of the stream and returns them together
with the rest of the stream; none when the stream is too short. -/
def readAll : Nat → List Nat → Option (List Nat × List Nat)
  | 0, s => some ([], s)
  | _ + 1, [] => none
  | n + 1, b :: s =>
    match readAll n s with
    | some (bs, rest) => some (b :: bs, rest)
    | none => none

/-- Conversion of a whole list, failing if any element fails: models
mapping a fallible constructor over a sequence, for example
list(map(METHOD, methods)) in socks.py line 155. -/
def convertAll {a b : Type} (f : a → Option b) : List a → Option (List b)
  | [] => some []
  | x :: xs =>
    match f x, convertAll f xs with
    | some y, some ys => some (y :: ys)
    | _, _ => none

/-- Fuel-driven decimal printer, auxiliary to decDigits; structural in the
fuel so that concrete evaluation reduces in the kernel. -/
def decDigitsAux : Nat → Nat → List Nat
  | 0, _ => []
  | fuel + 1, n =>
    if n < 10 then [48 + n]
    else decDigitsAux fuel (n / 10) ++ [48 + n % 10]

/-- ASCII code points of the decimal representation of n, as produced by
str(n) in Python. -/
def decDigits (n : Nat) : List Nat := decDigitsAux (n + 1) n

/-- Code point of a single lowercase hexadecimal digit. -/
def hexDigitChar (n : Nat) : Nat := if n < 10 then 48 + n else 87 + n

/-- Fuel-driven lowercase hexadecimal printer, auxiliary to hexDigits. -/
def hexDigitsAux : Nat → Nat → List Nat
  | 0, _ => []
  | fuel + 1, n =>
    if n < 16 then [hexDigitChar n]
    else hexDigitsAux fuel (n / 16) ++ [hexDigitChar (n % 16)]

/-- Code points of the lowercase hexadecimal representation of n with no
leading zeros, as produced by the %x format in Python. -/
def hexDigits (n : Nat) : List Nat := hexDigitsAux (n + 1) n

/-- Model of str.split(sep) on code points: splits at every separator,
keeping empty pieces, and yields one (empty) piece for the empty string. -/
def splitByte (sep : Nat) : List Nat → List (List Nat)
  | [] => [[]]
  | c :: cs =>
    match splitByte sep cs with
    | h :: t => if c = sep then [] :: h :: t else (c :: h) :: t
    | [] => if c = sep then [[], []] else [[c]]

/-- Model of sep.join(pieces) on code points. -/
def joinSep (sep : Nat) : List (List Nat) → List Nat
  | [] => []
  | [x] => x
  | x :: y :: t => x ++ sep :: joinSep sep (y :: t)

/-- Whether a code point is an ASCII decimal digit. -/
def isDigit (c : Nat) : Bool := 48 ≤ c && c ≤ 57

/-- Value of a list of ASCII decimal digit code points. -/
def digitsVal (p : List Nat) : Nat := p.foldl (fun a c => a * 10 + (c - 48)) 0

/-- Model of ipaddress._parse_octet for one dotted-decimal part: one to
three ASCII digits, no leading zero unless the octet is exactly 0, and a
value of at most 255; none models the AddressValueError otherwise. -/
def parseOctet (p : List Nat) : Option Nat :=
  if p = [] then none
  else if ¬ p.all isDigit then none
  else if 3 < p.length then none
  else if 1 < p.length ∧ p.headD 0 = 48 then none
  else if digitsVal p ≤ 255 then some (digitsVal p) else none

/-- Model of the ipaddress.IPv4Address constructor on a text address:
splits on the dot, requires exactly four octets and parses each; the
result is the packed form, a list of four bytes. -/
def ipv4Parse (h : List Nat) : Option (List Nat) :=
  let parts := splitByte 46 h
  if parts.length = 4 then convertAll parseOctet parts else none

/-- Model of the compressed (canonical dotted-decimal) text form of a
packed IPv4 address, ipaddress.IPv4Address(bytes).compressed. -/
def ipv4Compressed (bs : List Nat) : List Nat :=
  joinSep 46 (bs.map decDigits)

/-- Sixteen-bit words of a packed address, big-endian pairs of bytes. -/
def toHextets : List Nat → List Nat
  | b0 :: b1 :: rest => (256 * b0 + b1) :: toHextets rest
  | _ => []

/-- Bytes of a list of sixteen-bit words, big-endian. -/
def wordsToBytes : List Nat → List Nat
  | [] => []
  | w :: ws => w / 256 :: w % 256 :: wordsToBytes ws

/-- Scan for the first longest run of zero hextets, following the
counters of ipaddress._compress_hextets: arguments are the remaining
hextets, the current index, the start and length of the current run of
zeros, and the start and length of the best run found so far. -/
def bestRunAux : List Nat → Nat → Nat → Nat → Nat → Nat → Nat × Nat
  | [], _, _, _, bs, bl => (bs, bl)
  | h :: t, i, cs, cl, bs, bl =>
    if h = 0 then
      let cs2 := if cl = 0 then i else cs
      let cl2 := cl + 1
      if bl < cl2 then bestRunAux t (i + 1) cs2 cl2 cs2 cl2
      else bestRunAux t (i + 1) cs2 cl2 bs bl
    else bestRunAux t (i + 1) cs 0 bs bl

/-- Start and length of the first longest run of zero hextets. -/
def bestRun (hx : List Nat) : Nat × Nat := bestRunAux hx 0 0 0 0 0

/-- Splice of the best zero run into an empty piece, following the slice
assignment of ipaddress._compress_hextets: the run is replaced by one
empty piece, and an extra empty piece is added when the run touches the
start or the end of the list so that join produces the double colon. -/
def spliceBest (hs : List (List Nat)) (bs bl : Nat) : List (List Nat) :=
  let hs2 := if bs + bl = hs.length then hs ++ [[]] else hs
  let mid := hs2.take bs ++ [] :: hs2.drop (bs + bl)
  if bs = 0 then [] :: mid else mid

/-- Model of the compressed text form of a packed IPv6 address,
ipaddress.IPv6Address(bytes).compressed: lowercase hextets without
leading zeros, with the first longest run of two or more zero hextets
compressed to a double colon. -/
def ipv6Compressed (bsx : List Nat) : List Nat :=
  let hx := toHextets bsx
  let run := bestRun hx
  let hs := hx.map hexDigits
  if 1 < run.2 then joinSep 58 (spliceBest hs run.1 run.2)
  else joinSep 58 hs

/-- Value of one hexadecimal digit code point, either case. -/
def hexVal (c : Nat) : Option Nat :=
  if 48 ≤ c ∧ c ≤ 57 then some (c - 48)
  else if 97 ≤ c ∧ c ≤ 102 then some (c - 87)
  else if 65 ≤ c ∧ c ≤ 70 then some (c - 55)
  else none

/-- Model of ipaddress._parse_hextet: one to four hexadecimal digits. -/
def parseHextet (p : List Nat) : Option Nat :=
  if p = [] ∨ 4 < p.length then none
  else
    match convertAll hexVal p with
    | some ds => some (ds.foldl (fun a d => a * 16 + d) 0)
    | none => none

/-- Hextet words of an IPv6 text address, following the part accounting
of ipaddress._ip_int_from_string: split on the colon, between three and
nine parts, at most one empty part strictly inside (the double colon),
an empty first or last part only next to the double colon, and the
skipped middle filled with zero words.  The dotted-quad suffix form that
ipaddress also accepts for IPv4-mapped addresses is not modelled; no
compressed output uses it. -/
def ipv6Words (h : List Nat) : Option (List Nat) :=
  let parts := splitByte 58 h
  if parts.length < 3 ∨ 9 < parts.length then none
  else
    let inner := (parts.drop 1).dropLast
    if 1 < inner.countP (·.isEmpty) then none
    else
      match inner.findIdx? (·.isEmpty) with
      | some j =>
        let skip := j + 1
        let hi0 := skip
        let lo0 := parts.length - skip - 1
        let hi := if (parts.headD []).isEmpty then hi0 - 1 else hi0
        let lo := if (parts.getLastD []).isEmpty then lo0 - 1 else lo0
        if (parts.headD []).isEmpty ∧ hi0 - 1 ≠ 0 then none
        else if (parts.getLastD []).isEmpty ∧ lo0 - 1 ≠ 0 then none
        else if 8 - (hi + lo) < 1 ∨ 8 < hi + lo then none
        else
          match convertAll parseHextet (parts.take hi),
                convertAll parseHextet (parts.drop (parts.length - lo)) with
          | some ws1, some ws2 =>
            some (ws1 ++ List.replicate (8 - (hi + lo)) 0 ++ ws2)
          | _, _ => none
      | none =>
        if parts.length = 8 then convertAll parseHextet parts else none

/-- Model of the ipaddress.IPv6Address constructor on a text address;
the result is the packed form, a list of sixteen bytes.  The final
length gate is always true by construction and makes the packed size
explicit. -/
def ipv6Parse (h : List Nat) : Option (List Nat) :=
  match ipv6Words h with
  | some ws => if ws.length = 8 then some (wordsToBytes ws) else none
  | none => none

/-- UTF-8 bytes of one Unicode scalar value (assumed valid). -/
def utf8EncodeChar (c : Nat) : List Nat :=
  if c < 0x80 then [c]
  else if c < 0x800 then [0xC0 + c / 64, 0x80 + c % 64]
  else if c < 0x10000 then [0xE0 + c / 4096, 0x80 + c / 64 % 64, 0x80 + c % 64]
  else [0xF0 + c / 262144, 0x80 + c / 4096 % 64, 0x80 + c / 64 % 64, 0x80 + c % 64]

/-- Model of str.encode() on a list of code points: strict UTF-8, failing
on surrogate code points (which a Python str may contain) exactly as
str.encode raises UnicodeEncodeError. -/
def utf8Encode : List Nat → Option (List Nat)
  | [] => some []
  | c :: cs =>
    if 0xD800 ≤ c ∧ c ≤ 0xDFFF then none
    else if 0x10FFFF < c then none
    else
      match utf8Encode cs with
      | some bs => some (utf8EncodeChar c ++ bs)
      | none => none

/-- Strict UTF-8 decoder for one scalar: returns the code point and the
remaining bytes, rejecting overlong forms, surrogates and values above
0x10FFFF, as the strict errors mode of bytes.decode does. -/
def utf8DecodeChar : List Nat → Option (Nat × List Nat)
  | [] => none
  | b :: bs =>
    if b < 0x80 then some (b, bs)
    else if b < 0xC2 then none
    else if b < 0xE0 then
      match bs with
      | b2 :: r =>
        if 0x80 ≤ b2 ∧ b2 < 0xC0 then some ((b - 0xC0) * 64 + (b2 - 0x80), r)
        else none
      | _ => none
    else if b < 0xF0 then
      match bs with
      | b2 :: b3 :: r =>
        if (0x80 ≤ b2 ∧ b2 < 0xC0) ∧ (0x80 ≤ b3 ∧ b3 < 0xC0) then
          let c := (b - 0xE0) * 4096 + (b2 - 0x80) * 64 + (b3 - 0x80)
          if c < 0x800 ∨ (0xD800 ≤ c ∧ c ≤ 0xDFFF) then none else some (c, r)
        else none
      | _ => none
    else if b < 0xF5 then
      match bs with
      | b2 :: b3 :: b4 :: r =>
        if (0x80 ≤ b2 ∧ b2 < 0xC0) ∧ (0x80 ≤ b3 ∧ b3 < 0xC0) ∧
           (0x80 ≤ b4 ∧ b4 < 0xC0) then
          let c := (b - 0xF0) * 262144 + (b2 - 0x80) * 4096 +
                   (b3 - 0x80) * 64 + (b4 - 0x80)
          if c < 0x10000 ∨ 0x10FFFF < c then none else some (c, r)
        else none
      | _ => none
    else none

/-- Fuel-driven list-level UTF-8 decoder; the fuel is the byte count, a
bound on the number of scalars, so that the recursion is structural. -/
def utf8DecodeAux : Nat → List Nat → Option (List Nat)
  | _, [] => some []
  | 0, _ :: _ => none
  | fuel + 1, bs =>
    match utf8DecodeChar bs with
    | some (c, rest) =>
      match utf8DecodeAux fuel rest with
      | some cs => some (c :: cs)
      | none => none
    | none => none

/-- Model of bytes.decode() with strict errors: UTF-8 bytes to code
points, none modelling UnicodeDecodeError. -/
def utf8Decode (bs : List Nat) : Option (List Nat) := utf8DecodeAux bs.length bs

/-- SOCKS relay message of socks.py (class Message, lines 68-139): the
msg field holds either a CMD (request) or a REP (reply) member, the addr
tuple is split into its host text and port number. -/
structure Message where
  ver : VERSION
  msg : Sum CMD REP
  atype : ATYPE
  host : List Nat
  port : Nat
  deriving DecidableEq

/-- Wire value of the command-or-reply field. -/
def msgValue : Sum CMD REP → Nat
  | .inl c => c.value
  | .inr r => r.value

/-- Message.is_request (socks.py lines 91-93): self.msg in CMD is true
exactly when the stored member is a CMD member (enum containment checks
the member class, so a REP member is never in CMD, even when its wire
value coincides with a CMD value). -/
def Message.is_request (m : Message) : Bool := m.msg.isLeft

/-- Conversion of the command-or-reply byte as in socks.py line 105:
CMD(msg) if request else REP(msg). -/
def msgOf (request : Bool) (b : Nat) : Option (Sum CMD REP) :=
  if request then (CMD.ofValue b).map Sum.inl
  else (REP.ofValue b).map Sum.inr

/-- Shared tail of Message.from_stream (socks.py lines 118-119): read the
two port bytes, big-endian, and assemble the message. -/
def finishMsg (ver : VERSION) (msg : Sum CMD REP) (atype : ATYPE)
    (host : List Nat) (s : List Nat) : Except PyErr (Message × List Nat) :=
  match readAll 2 s with
  | none => .error .shortRead
  | some (pb, rest) =>
    .ok (⟨ver, msg, atype, host, 256 * pb.headD 0 + pb.getD 1 0⟩, rest)

/-- Address-reading stage of Message.from_stream (socks.py lines
111-117), by address type: a domain name reads one length byte and that
many host bytes decoded as UTF-8 (none modelling UnicodeDecodeError);
IPv4 reads four bytes and IPv6 sixteen, turned into their compressed
text by the ipaddress constructor; the result is the host text and the
rest of the stream. -/
def readAddr : ATYPE → List Nat → Except PyErr (List Nat × List Nat)
  | .DOMAINNAME, s =>
    match readAll 1 s with
    | none => .error .shortRead
    | some (alenL, s2) =>
      match readAll (alenL.headD 0) s2 with
      | none => .error .shortRead
      | some (hb, s3) =>
        match utf8Decode hb with
        | some host => .ok (host, s3)
        | none => .error .unicodeError
  | .IPV4, s =>
    match readAll 4 s with
    | none => .error .shortRead
    | some (ab, s2) => .ok (ipv4Compressed ab, s2)
  | .IPV6, s =>
    match readAll 16 s with
    | none => .error .shortRead
    | some (ab, s2) => .ok (ipv6Compressed ab, s2)

/-- Message.from_stream (socks.py lines 95-119).  Reads the four header
bytes; rejects a nonzero reserved byte with ProxyError(GENERAL_SOCKS_
SERVER_FAILURE); converts version, command-or-reply and address type —
on a ValueError from any of the three conversions the handler at lines
107-110 evaluates e.message, which raises AttributeError under Python 3,
so that path is modelled as attributeError; then reads the address by
address type and the two port bytes. -/
def Message.from_stream (request : Bool) (s : List Nat) :
    Except PyErr (Message × List Nat) :=
  match readAll 4 s with
  | none => .error .shortRead
  | some (hdr, s1) =>
    match hdr with
    | [v, msgB, rsv, aty] =>
      if rsv ≠ 0 then .error (.proxyError .GENERAL_SOCKS_SERVER_FAILURE)
      else
        match VERSION.ofValue v, msgOf request msgB, ATYPE.ofValue aty with
        | some ver, some msg, some atype =>
          match readAddr atype s1 with
          | .error e => .error e
          | .ok (host, s2) => finishMsg ver msg atype host s2
        | _, _, _ => .error .attributeError
    | _ => .error .shortRead

/-- Message.to_bytes (socks.py lines 121-133).  Emits the four header
bytes with the fixed zero reserved byte, then the address: for a domain
name the UTF-8 byte length followed by the UTF-8 bytes (struct.pack with
the B format raises struct.error when the length exceeds 255, it never
wraps), for IPv4 and IPv6 the packed form of the host text parsed by the
ipaddress constructor (AddressValueError, a ValueError, when the text
does not parse), then the two port bytes (struct.error when the port
does not fit 16 bits). -/
def Message.to_bytes (m : Message) : Except PyErr (List Nat) :=
  let hdr := [m.ver.value, msgValue m.msg, 0, m.atype.value]
  match m.atype with
  | .DOMAINNAME =>
    match utf8Encode m.host with
    | none => .error .unicodeError
    | some enc =>
      if enc.length ≤ 255 then
        if m.port < 65536 then
          .ok (hdr ++ enc.length :: enc ++ [m.port / 256, m.port % 256])
        else .error .structError
      else .error .structError
  | .IPV4 =>
    match ipv4Parse m.host with
    | none => .error .valueError
    | some ab =>
      if m.port < 65536 then .ok (hdr ++ ab ++ [m.port / 256, m.port % 256])
      else .error .structError
  | .IPV6 =>
    match ipv6Parse m.host with
    | none => .error .valueError
    | some ab =>
      if m.port < 65536 then .ok (hdr ++ ab ++ [m.port / 256, m.port % 256])
      else .error .structError

/-- ClientGreeting of socks.py (lines 142-167): version, the stored
method count as constructed, and the method sequence. -/
structure ClientGreeting where
  ver : VERSION
  nmethods : Nat
  methods : List METHOD
  deriving DecidableEq

/-- ClientGreeting.from_stream (socks.py lines 149-156): reads version
and count bytes, then exactly count method bytes; the VERSION and METHOD
conversions are not wrapped in any handler, so an undefined byte raises
a plain ValueError. -/
def ClientGreeting.from_stream (s : List Nat) :
    Except PyErr (ClientGreeting × List Nat) :=
  match readAll 2 s with
  | none => .error .shortRead
  | some (hd, s1) =>
    match hd with
    | [v, n] =>
      match readAll n s1 with
      | none => .error .shortRead
      | some (mb, s2) =>
        match VERSION.ofValue v with
        | none => .error .valueError
        | some ver =>
          match convertAll METHOD.ofValue mb with
          | none => .error .valueError
          | some methods => .ok (⟨ver, n, methods⟩, s2)
    | _ => .error .shortRead

/-- ClientGreeting.to_bytes (socks.py lines 158-163): asserts that the
stored count equals the sequence length (AssertionError otherwise), then
packs version and the stored count (struct.error when the count exceeds
255) followed by one byte per method. -/
def ClientGreeting.to_bytes (g : ClientGreeting) : Except PyErr (List Nat) :=
  if g.nmethods ≠ g.methods.length then .error .assertionError
  else if g.nmethods ≤ 255 then
    .ok (g.ver.value :: g.nmethods :: g.methods.map METHOD.value)
  else .error .structError

/-- ServerGreeting of socks.py (lines 170-188). -/
structure ServerGreeting where
  ver : VERSION
  method : METHOD
  deriving DecidableEq

/-- ServerGreeting.from_stream (socks.py lines 177-182): reads two bytes;
the unwrapped VERSION and METHOD conversions raise plain ValueError on
undefined bytes, version first. -/
def ServerGreeting.from_stream (s : List Nat) :
    Except PyErr (ServerGreeting × List Nat) :=
  match readAll 2 s with
  | none => .error .shortRead
  | some (hd, s1) =>
    match hd with
    | [v, mth] =>
      match VERSION.ofValue v with
      | none => .error .valueError
      | some ver =>
        match METHOD.ofValue mth with
        | none => .error .valueError
        | some method => .ok (⟨ver, method⟩, s1)
    | _ => .error .shortRead

/-- ServerGreeting.to_bytes (socks.py lines 184-185): two bytes, always
defined since both enum values fit one byte. -/
def ServerGreeting.to_bytes (g : ServerGreeting) : List Nat :=
  [g.ver.value, g.method.value]

/-- Plain codec (codec.py lines 31-38): identity. -/
def Plain.encode (d : List Nat) : List Nat := d

/-- Decode of the Plain codec: identity. -/
def Plain.decode (d : List Nat) : List Nat := d

/-- First index of a byte in a table, the bytearray.find of codec.py line
113; none models the not-found result -1, which poisons the later bit
string so that int(bits, 2) raises ValueError. -/
def tableIndexAux : List Nat → Nat → Nat → Option Nat
  | [], _, _ => none
  | t :: ts, b, i => if t = b then some i else tableIndexAux ts b (i + 1)

/-- First index of a byte in a table, starting at zero. -/
def tableIndex (table : List Nat) (b : Nat) : Option Nat := tableIndexAux table b 0

/-- Zero-byte padding count of XXencode.encode (codec.py lines 92-93):
zero when the length is a multiple of three, else the complement. -/
def xxPad (len : Nat) : Nat := (3 - len % 3) % 3

/-- Three-byte groups to four table bytes, the 24-bit regrouping loop of
XXencode.encode (codec.py lines 97-104): each group of three bytes is
split into four six-bit values looked up in the table. -/
def xxChunks (table : List Nat) : List Nat → List Nat
  | b1 :: b2 :: b3 :: rest =>
    table.getD (b1 / 4) 0 :: table.getD (b1 % 4 * 16 + b2 / 16) 0 ::
    table.getD (b2 % 16 * 4 + b3 / 64) 0 :: table.getD (b3 % 64) 0 ::
    xxChunks table rest
  | _ => []

/-- XXencode.encode with an explicit table (codec.py lines 89-105): the
padding count byte followed by the encoded zero-padded data. -/
def xxEncode (table : List Nat) (d : List Nat) : List Nat :=
  xxPad d.length :: xxChunks table (d ++ List.replicate (xxPad d.length) 0)

/-- Four table bytes back to three bytes.  The source accumulates six
bits per input byte and regroups into eights (codec.py lines 111-117);
on a character count that is not a multiple of four the bit count is not
a multiple of eight and the assert at line 115 fails, and on a byte
outside the table the bit string is poisoned and int raises ValueError:
both failure paths are modelled as none. -/
def xxDechunk (table : List Nat) : List Nat → Option (List Nat)
  | [] => some []
  | c1 :: c2 :: c3 :: c4 :: rest =>
    match tableIndex table c1, tableIndex table c2, tableIndex table c3,
          tableIndex table c4, xxDechunk table rest with
    | some i1, some i2, some i3, some i4, some bs =>
      some ((i1 * 4 + i2 / 16) :: (i2 % 16 * 16 + i3 / 4) :: (i3 % 4 * 64 + i4) :: bs)
    | _, _, _, _, _ => none
  | _ => none

/-- XXencode.decode with an explicit table (codec.py lines 107-121):
reads the padding count from the first byte (IndexError on empty input,
modelled as none), decodes the rest, and strips the padding bytes. -/
def xxDecode (table : List Nat) : List Nat → Option (List Nat)
  | [] => none
  | p :: rest =>
    match xxDechunk table rest with
    | some bs => some (bs.take (bs.length - p))
    | none => none

/-- Table of the XXencode codec (codec.py lines 84-86). -/
def XXencode.table : List Nat :=
  [43, 45] ++ (List.range 10).map (48 + ·) ++ (List.range 26).map (65 + ·) ++
  (List.range 26).map (97 + ·)

/-- Encode of the XXencode codec. -/
def XXencode.encode (d : List Nat) : List Nat := xxEncode XXencode.table d

/-- Decode of the XXencode codec. -/
def XXencode.decode (d : List Nat) : Option (List Nat) := xxDecode XXencode.table d

/-- Table of the UUencode codec (codec.py line 125): bytes 32 to 95. -/
def UUencode.table : List Nat := (List.range 64).map (32 + ·)

/-- Encode of the UUencode codec, the inherited XXencode.encode with the
UUencode table. -/
def UUencode.encode (d : List Nat) : List Nat := xxEncode UUencode.table d

/-- Decode of the UUencode codec. -/
def UUencode.decode (d : List Nat) : Option (List Nat) := xxDecode UUencode.table d

/-- One byte of the AtBash codec (codec.py line 133): abs(0xFF - b). -/
def atbashByte (b : Nat) : Nat := (255 - (b : Int)).natAbs

/-- AtBash.encode (codec.py lines 130-134). -/
def AtBash.encode (d : List Nat) : List Nat := d.map atbashByte

/-- AtBash.decode (codec.py lines 136-137): delegates to encrypt, which
delegates back to encode. -/
def AtBash.decode (d : List Nat) : List Nat := AtBash.encode d

/-- Code point of one uppercase hexadecimal digit. -/
def hexUpper (n : Nat) : Nat := if n < 10 then 48 + n else 55 + n

/-- Value of one uppercase hexadecimal digit code point; lowercase is
rejected, as base64.b16decode does without casefold. -/
def hexUpperVal (c : Nat) : Option Nat :=
  if 48 ≤ c ∧ c ≤ 57 then some (c - 48)
  else if 65 ≤ c ∧ c ≤ 70 then some (c - 55)
  else none

/-- Base16 codec encode (codec.py lines 57-59 calling base64.b16encode):
two uppercase hexadecimal characters per byte. -/
def Base16.encode : List Nat → List Nat
  | [] => []
  | b :: bs => hexUpper (b / 16) :: hexUpper (b % 16) :: Base16.encode bs

/-- Base16 codec decode (base64.b16decode): pairs of uppercase
hexadecimal characters; none models the binascii error on malformed
input. -/
def Base16.decode : List Nat → Option (List Nat)
  | [] => some []
  | c1 :: c2 :: cs =>
    match hexUpperVal c1, hexUpperVal c2, Base16.decode cs with
    | some h, some l, some rest => some ((16 * h + l) :: rest)
    | _, _, _ => none
  | _ => none

/-- Standard Base64 alphabet. -/
def b64Alphabet : List Nat :=
  (List.range 26).map (65 + ·) ++ (List.range 26).map (97 + ·) ++
  (List.range 10).map (48 + ·) ++ [43, 47]

/-- Character of a six-bit value in the Base64 alphabet. -/
def b64Char (v : Nat) : Nat := b64Alphabet.getD v 0

/-- Base64 codec encode (codec.py lines 41-43 calling base64.b64encode):
three-byte groups to four characters, with equals-sign padding on a
final group of one or two bytes. -/
def Base64.encode : List Nat → List Nat
  | [] => []
  | [b1] => [b64Char (b1 / 4), b64Char (b1 % 4 * 16), 61, 61]
  | [b1, b2] => [b64Char (b1 / 4), b64Char (b1 % 4 * 16 + b2 / 16),
                 b64Char (b2 % 16 * 4), 61]
  | b1 :: b2 :: b3 :: rest =>
    b64Char (b1 / 4) :: b64Char (b1 % 4 * 16 + b2 / 16) ::
    b64Char (b2 % 16 * 4 + b3 / 64) :: b64Char (b3 % 64) :: Base64.encode rest

/-- Base64 codec decode (base64.b64decode) on well-formed input:
four-character groups, equals-sign padding only in a final group; none
models the binascii error on malformed input (the Python decoder is more
lenient off the image of encode: without validation it first discards
bytes outside the alphabet, which no output of encode contains). -/
def Base64.decode : List Nat → Option (List Nat)
  | [] => some []
  | c1 :: c2 :: c3 :: c4 :: rest =>
    match tableIndex b64Alphabet c1, tableIndex b64Alphabet c2 with
    | some i1, some i2 =>
      if c3 = 61 then
        if c4 = 61 ∧ rest = [] then some [i1 * 4 + i2 / 16] else none
      else
        match tableIndex b64Alphabet c3 with
        | some i3 =>
          if c4 = 61 then
            if rest = [] then some [i1 * 4 + i2 / 16, i2 % 16 * 16 + i3 / 4]
            else none
          else
            match tableIndex b64Alphabet c4, Base64.decode rest with
            | some i4, some bs =>
              some ((i1 * 4 + i2 / 16) :: (i2 % 16 * 16 + i3 / 4) ::
                    (i3 % 4 * 64 + i4) :: bs)
            | _, _ => none
        | none => none
    | _, _ => none
  | _ => none

/-- Standard Base32 alphabet: A to Z then 2 to 7. -/
def b32Alphabet : List Nat :=
  (List.range 26).map (65 + ·) ++ (List.range 6).map (50 + ·)

/-- Character of a five-bit value in the Base32 alphabet. -/
def b32Char (v : Nat) : Nat := b32Alphabet.getD v 0

/-- Base32 codec encode (codec.py lines 49-51 calling base64.b32encode):
five-byte groups to eight characters; a final group of one to four bytes
is zero-extended and the unused characters are replaced by equals
signs. -/
def Base32.encode : List Nat → List Nat
  | [] => []
  | [b1] => [b32Char (b1 / 8), b32Char (b1 % 8 * 4), 61, 61, 61, 61, 61, 61]
  | [b1, b2] => [b32Char (b1 / 8), b32Char (b1 % 8 * 4 + b2 / 64),
                 b32Char (b2 / 2 % 32), b32Char (b2 % 2 * 16), 61, 61, 61, 61]
  | [b1, b2, b3] => [b32Char (b1 / 8), b32Char (b1 % 8 * 4 + b2 / 64),
                     b32Char (b2 / 2 % 32), b32Char (b2 % 2 * 16 + b3 / 16),
                     b32Char (b3 % 16 * 2), 61, 61, 61]
  | [b1, b2, b3, b4] => [b32Char (b1 / 8), b32Char (b1 % 8 * 4 + b2 / 64),
                         b32Char (b2 / 2 % 32), b32Char (b2 % 2 * 16 + b3 / 16),
                         b32Char (b3 % 16 * 2 + b4 / 128), b32Char (b4 / 4 % 32),
                         b32Char (b4 % 4 * 8), 61]
  | b1 :: b2 :: b3 :: b4 :: b5 :: rest =>
    b32Char (b1 / 8) :: b32Char (b1 % 8 * 4 + b2 / 64) ::
    b32Char (b2 / 2 % 32) :: b32Char (b2 % 2 * 16 + b3 / 16) ::
    b32Char (b3 % 16 * 2 + b4 / 128) :: b32Char (b4 / 4 % 32) ::
    b32Char (b4 % 4 * 8 + b5 / 32) :: b32Char (b5 % 32) :: Base32.encode rest

/-- Base32 codec decode (base64.b32decode) on well-formed input:
eight-character groups, a tail of one, three, four or six equals signs
selecting four, three, two or one final bytes. -/
def Base32.decode : List Nat → Option (List Nat)
  | [] => some []
  | c1 :: c2 :: c3 :: c4 :: c5 :: c6 :: c7 :: c8 :: rest =>
    match tableIndex b32Alphabet c1, tableIndex b32Alphabet c2 with
    | some i1, some i2 =>
      if c3 = 61 then
        if c4 = 61 ∧ c5 = 61 ∧ c6 = 61 ∧ c7 = 61 ∧ c8 = 61 ∧ rest = [] then
          some [i1 * 8 + i2 / 4]
        else none
      else
        match tableIndex b32Alphabet c3, tableIndex b32Alphabet c4 with
        | some i3, some i4 =>
          if c5 = 61 then
            if c6 = 61 ∧ c7 = 61 ∧ c8 = 61 ∧ rest = [] then
              some [i1 * 8 + i2 / 4, i2 % 4 * 64 + i3 * 2 + i4 / 16]
            else none
          else
            match tableIndex b32Alphabet c5 with
            | some i5 =>
              if c6 = 61 then
                if c7 = 61 ∧ c8 = 61 ∧ rest = [] then
                  some [i1 * 8 + i2 / 4, i2 % 4 * 64 + i3 * 2 + i4 / 16,
                        i4 % 16 * 16 + i5 / 2]
                else none
              else
                match tableIndex b32Alphabet c6, tableIndex b32Alphabet c7 with
                | some i6, some i7 =>
                  if c8 = 61 then
                    if rest = [] then
                      some [i1 * 8 + i2 / 4, i2 % 4 * 64 + i3 * 2 + i4 / 16,
                            i4 % 16 * 16 + i5 / 2, i5 % 2 * 128 + i6 * 4 + i7 / 8]
                    else none
                  else
                    match tableIndex b32Alphabet c8, Base32.decode rest with
                    | some i8, some bs =>
                      some ((i1 * 8 + i2 / 4) :: (i2 % 4 * 64 + i3 * 2 + i4 / 16) ::
                            (i4 % 16 * 16 + i5 / 2) ::
                            (i5 % 2 * 128 + i6 * 4 + i7 / 8) ::
                            (i7 % 8 * 32 + i8) :: bs)
                    | _, _ => none
                | _, _ => none
            | none => none
        | _, _ => none
    | _, _ => none
  | _ => none

/-- Alphabet of base64.b85encode: digits, uppercase, lowercase, then the
twenty-three punctuation characters of the b85 table. -/
def b85Alphabet : List Nat :=
  (List.range 10).map (48 + ·) ++ (List.range 26).map (65 + ·) ++
  (List.range 26).map (97 + ·) ++
  [33, 35, 36, 37, 38, 40, 41, 42, 43, 45, 59, 60, 61, 62, 63, 64, 94, 95,
   96, 123, 124, 125, 126]

/-- Character of a base-85 digit. -/
def b85Char (v : Nat) : Nat := b85Alphabet.getD v 0

/-- Five base-85 characters of one 32-bit word, most significant digit
first. -/
def word85 (w : Nat) : List Nat :=
  [b85Char (w / 52200625 % 85), b85Char (w / 614125 % 85),
   b85Char (w / 7225 % 85), b85Char (w / 85 % 85), b85Char (w % 85)]

/-- Base85 codec encode (codec.py lines 65-67 calling base64.b85encode):
each four-byte group becomes the five base-85 digits of its big-endian
32-bit word; a final group of k bytes is zero-extended and only the
first k plus one characters are kept. -/
def Base85.encode : List Nat → List Nat
  | [] => []
  | [b1] => (word85 (b1 * 16777216)).take 2
  | [b1, b2] => (word85 (b1 * 16777216 + b2 * 65536)).take 3
  | [b1, b2, b3] => (word85 (b1 * 16777216 + b2 * 65536 + b3 * 256)).take 4
  | b1 :: b2 :: b3 :: b4 :: rest =>
    word85 (b1 * 16777216 + b2 * 65536 + b3 * 256 + b4) ++ Base85.encode rest

/-- Groups of five base-85 characters to four-byte words; none models
the ValueError of base64.b85decode on a character outside the alphabet
or a word above 32 bits. -/
def b85Groups : List Nat → Option (List Nat)
  | [] => some []
  | c1 :: c2 :: c3 :: c4 :: c5 :: rest =>
    match tableIndex b85Alphabet c1, tableIndex b85Alphabet c2,
          tableIndex b85Alphabet c3, tableIndex b85Alphabet c4,
          tableIndex b85Alphabet c5 with
    | some i1, some i2, some i3, some i4, some i5 =>
      let w := (((i1 * 85 + i2) * 85 + i3) * 85 + i4) * 85 + i5
      if w < 4294967296 then
        match b85Groups rest with
        | some bs =>
          some ((w / 16777216) :: (w / 65536 % 256) :: (w / 256 % 256) ::
                (w % 256) :: bs)
        | none => none
      else none
    | _, _, _, _, _ => none
  | _ => none

/-- Base85 codec decode (base64.b85decode): the input is padded to a
multiple of five with the last alphabet character (digit 84, the tilde),
decoded in groups, and the padding bytes are stripped from the end. -/
def Base85.decode (s : List Nat) : Option (List Nat) :=
  let padding := (5 - s.length % 5) % 5
  match b85Groups (s ++ List.replicate padding 126) with
  | some bs => some (bs.take (bs.length - padding))
  | none => none

theorem readAll_append (xs ys : List Nat) :
    readAll xs.length (xs ++ ys) = some (xs, ys) := by
  induction xs with
  | nil => rfl
  | cons b bs ih => simp [readAll, ih, List.length_cons]

theorem readAll_eq : ∀ {n : Nat} {s bs rest : List Nat},
    readAll n s = some (bs, rest) → s = bs ++ rest ∧ bs.length = n := by
  intro n
  induction n with
  | zero =>
    intro s bs rest h
    simp [readAll] at h
    simp [h.1, h.2]
  | succ k ih =>
    intro s bs rest h
    match s with
    | [] => simp [readAll] at h
    | b :: s1 =>
      simp only [readAll] at h
      cases hr : readAll k s1 with
      | none => rw [hr] at h; exact absurd h (by simp)
      | some p =>
        obtain ⟨bs1, r1⟩ := p
        rw [hr] at h
        simp at h
        obtain ⟨hb, hrest⟩ := h
        obtain ⟨h1, h2⟩ := ih hr
        subst hb
        subst hrest
        subst h1
        simp [h2]

theorem length_eq_four {l : List Nat} (h : l.length = 4) :
    ∃ a b c d, l = [a, b, c, d] := by
  match l with
  | [a, b, c, d] => exact ⟨a, b, c, d, rfl⟩

theorem versionOfValue_value (v : VERSION) : VERSION.ofValue v.value = some v := by
  cases v <;> rfl

theorem methodOfValue_value (m : METHOD) : METHOD.ofValue m.value = some m := by
  cases m <;> rfl

theorem cmdOfValue_value (c : CMD) : CMD.ofValue c.value = some c := by
  cases c <;> rfl

theorem atypeOfValue_value (a : ATYPE) : ATYPE.ofValue a.value = some a := by
  cases a <;> rfl

theorem repOfValue_value (r : REP) : REP.ofValue r.value = some r := by
  cases r <;> rfl

theorem msgOf_isLeft (ms : Sum CMD REP) :
    msgOf ms.isLeft (msgValue ms) = some ms := by
  cases ms with
  | inl c => simp [msgOf, msgValue, cmdOfValue_value]
  | inr r => simp [msgOf, msgValue, repOfValue_value]

theorem msgOf_request {request : Bool} {b : Nat} {ms : Sum CMD REP}
    (h : msgOf request b = some ms) : ms.isLeft = request := by
  cases request with
  | true =>
    simp [msgOf] at h
    obtain ⟨c, _, hc⟩ := h
    subst hc
    rfl
  | false =>
    simp [msgOf] at h
    obtain ⟨r, _, hr⟩ := h
    subst hr
    rfl

theorem convertAll_map_value (ms : List METHOD) :
    convertAll METHOD.ofValue (ms.map METHOD.value) = some ms := by
  induction ms with
  | nil => rfl
  | cons m t ih => simp [convertAll, methodOfValue_value, ih]

theorem convertAll_length {a b : Type} {f : a → Option b} {xs : List a}
    {ys : List b} (h : convertAll f xs = some ys) : ys.length = xs.length := by
  induction xs generalizing ys with
  | nil => simp [convertAll] at h; simp [← h]
  | cons x t ih =>
    simp only [convertAll] at h
    cases hf : f x with
    | none => rw [hf] at h; exact absurd h (by simp)
    | some y =>
      rw [hf] at h
      cases hc : convertAll f t with
      | none => rw [hc] at h; exact absurd h (by simp)
      | some ys1 =>
        rw [hc] at h
        simp at h
        subst h
        simp [ih hc]

theorem ipv4Parse_length {h : List Nat} {bs : List Nat}
    (hp : ipv4Parse h = some bs) : bs.length = 4 := by
  simp only [ipv4Parse] at hp
  split at hp
  next hl => rw [convertAll_length hp, hl]
  next => exact absurd hp (by simp)

theorem wordsToBytes_length (ws : List Nat) :
    (wordsToBytes ws).length = 2 * ws.length := by
  induction ws with
  | nil => rfl
  | cons w t ih => simp [wordsToBytes, ih]; omega

theorem ipv6Parse_length {h : List Nat} {bs : List Nat}
    (hp : ipv6Parse h = some bs) : bs.length = 16 := by
  unfold ipv6Parse at hp
  cases hw : ipv6Words h with
  | none => rw [hw] at hp; exact absurd hp (by simp)
  | some ws =>
    rw [hw] at hp
    split at hp
    next hl =>
      simp at hp
      obtain ⟨h8, hb⟩ := hp
      rw [← hb, wordsToBytes_length, h8]
    next => exact absurd hp (by simp)

/-- Canonical host text for an address type, defining the validity of a
message value as stored by the data model: for IPv4 and IPv6 the host
parses under the ipaddress constructor and equals the compressed text of
its packed form (the canonical textual address of spec section 3); for a
domain name the host encodes to one to 255 UTF-8 bytes that decode back
to the same code points. -/
def hostCanonical : ATYPE → List Nat → Prop
  | .IPV4, h => ∃ ab, ipv4Parse h = some ab ∧ ipv4Compressed ab = h
  | .IPV6, h => ∃ ab, ipv6Parse h = some ab ∧ ipv6Compressed ab = h
  | .DOMAINNAME, h =>
    ∃ enc, utf8Encode h = some enc ∧ utf8Decode enc = some h ∧
      1 ≤ enc.length ∧ enc.length ≤ 255

/-- Data-model invariant of a relay message value (spec section 3):
canonical host text for the address type and a sixteen-bit port. -/
def Message.wf (m : Message) : Prop :=
  hostCanonical m.atype m.host ∧ m.port < 65536

/-- Data-model invariant of a client greeting value (spec section 3):
the stored count equals the sequence length, which is one to 255. -/
def ClientGreeting.wf (g : ClientGreeting) : Prop :=
  g.nmethods = g.methods.length ∧ 1 ≤ g.methods.length ∧ g.methods.length ≤ 255

theorem readAll_exact {n : Nat} (xs ys : List Nat) (h : xs.length = n) :
    readAll n (xs ++ ys) = some (xs, ys) := by
  subst h
  exact readAll_append xs ys

theorem roundTripMessage :
    ∀ (m : Message) (bs : List Nat), m.wf → m.to_bytes = .ok bs →
      Message.from_stream m.is_request bs = .ok (m, []) := by
  intro m bs hwf hbytes
  obtain ⟨hhost, hport⟩ := hwf
  obtain ⟨ver, msg, atype, host, port⟩ := m
  simp only [Message.is_request]
  replace hport : port < 65536 := hport
  cases atype
  case IPV4 =>
    obtain ⟨ab, hparse, hcomp⟩ := hhost
    replace hparse : ipv4Parse host = some ab := hparse
    replace hcomp : ipv4Compressed ab = host := hcomp
    simp only [Message.to_bytes, hparse, if_pos hport] at hbytes
    injection hbytes with hb
    subst hb
    have h4 : readAll 4 ([VERSION.value ver, msgValue msg, 0, ATYPE.value .IPV4] ++
        (ab ++ [port / 256, port % 256])) =
        some ([VERSION.value ver, msgValue msg, 0, ATYPE.value .IPV4],
              ab ++ [port / 256, port % 256]) :=
      readAll_exact _ _ rfl
    have h4b : readAll 4 (ab ++ [port / 256, port % 256]) =
        some (ab, [port / 256, port % 256]) :=
      readAll_exact _ _ (ipv4Parse_length hparse)
    simp only [List.append_assoc, List.cons_append, List.nil_append] at h4 ⊢
    simp only [Message.from_stream, h4]
    simp only [versionOfValue_value, msgOf_isLeft, atypeOfValue_value]
    simp only [readAddr, h4b, finishMsg, readAll, hcomp]
    simp
    omega
  case IPV6 =>
    obtain ⟨ab, hparse, hcomp⟩ := hhost
    replace hparse : ipv6Parse host = some ab := hparse
    replace hcomp : ipv6Compressed ab = host := hcomp
    simp only [Message.to_bytes, hparse, if_pos hport] at hbytes
    injection hbytes with hb
    subst hb
    have h4 : readAll 4 ([VERSION.value ver, msgValue msg, 0, ATYPE.value .IPV6] ++
        (ab ++ [port / 256, port % 256])) =
        some ([VERSION.value ver, msgValue msg, 0, ATYPE.value .IPV6],
              ab ++ [port / 256, port % 256]) :=
      readAll_exact _ _ rfl
    have h16 : readAll 16 (ab ++ [port / 256, port % 256]) =
        some (ab, [port / 256, port % 256]) :=
      readAll_exact _ _ (ipv6Parse_length hparse)
    simp only [List.append_assoc, List.cons_append, List.nil_append] at h4 ⊢
    simp only [Message.from_stream, h4]
    simp only [versionOfValue_value, msgOf_isLeft, atypeOfValue_value]
    simp only [readAddr, h16, finishMsg, readAll, hcomp]
    simp
    omega
  case DOMAINNAME =>
    obtain ⟨enc, hence, hdec, hlen1, hlen255⟩ := hhost
    replace hence : utf8Encode host = some enc := hence
    replace hdec : utf8Decode enc = some host := hdec
    simp only [Message.to_bytes, hence, if_pos hlen255, if_pos hport] at hbytes
    injection hbytes with hb
    subst hb
    have h4 : readAll 4 ([VERSION.value ver, msgValue msg, 0, ATYPE.value .DOMAINNAME] ++
        (enc.length :: (enc ++ [port / 256, port % 256]))) =
        some ([VERSION.value ver, msgValue msg, 0, ATYPE.value .DOMAINNAME],
              enc.length :: (enc ++ [port / 256, port % 256])) :=
      readAll_exact _ _ rfl
    have henc : readAll enc.length (enc ++ [port / 256, port % 256]) =
        some (enc, [port / 256, port % 256]) :=
      readAll_exact _ _ rfl
    simp only [List.append_assoc, List.cons_append, List.nil_append] at h4 ⊢
    simp only [Message.from_stream, h4]
    simp only [versionOfValue_value, msgOf_isLeft, atypeOfValue_value]
    simp only [readAddr, readAll, List.headD, henc, hdec, finishMsg]
    simp
    omega

theorem roundTripClientGreeting :
    ∀ (g : ClientGreeting) (bs : List Nat), g.wf → g.to_bytes = .ok bs →
      ClientGreeting.from_stream bs = .ok (g, []) := by
  intro g bs hwf hbytes
  obtain ⟨hn, hlen1, hlen255⟩ := hwf
  obtain ⟨ver, n, ms⟩ := g
  replace hn : n = ms.length := hn
  replace hlen255 : ms.length ≤ 255 := hlen255
  subst hn
  simp only [ClientGreeting.to_bytes] at hbytes
  have hcond : ¬ (ms.length ≠ ms.length) := by simp
  rw [if_neg hcond, if_pos hlen255] at hbytes
  injection hbytes with hb
  subst hb
  have h2 : readAll 2 (VERSION.value ver :: ms.length :: ms.map METHOD.value) =
      some ([VERSION.value ver, ms.length], ms.map METHOD.value) := rfl
  have hr : readAll ms.length (ms.map METHOD.value) =
      some (ms.map METHOD.value, []) := by
    have h := @readAll_exact ms.length (ms.map METHOD.value) [] (by simp)
    simpa using h
  simp only [ClientGreeting.from_stream, h2, hr, versionOfValue_value,
    convertAll_map_value]

theorem roundTripServerGreeting :
    ∀ g : ServerGreeting, ServerGreeting.from_stream g.to_bytes = .ok (g, []) := by
  intro g
  obtain ⟨ver, mth⟩ := g
  have h2 : readAll 2 [VERSION.value ver, METHOD.value mth] =
      some ([VERSION.value ver, METHOD.value mth], []) := rfl
  simp only [ServerGreeting.to_bytes, ServerGreeting.from_stream, h2,
    versionOfValue_value, methodOfValue_value]

/-- C1: for every valid ClientGreeting, ServerGreeting and RelayMessage
value (all three address types, and both the request and the reply
interpretation with the matching request flag passed to decode),
decoding the bytes produced by encode yields a message equal to the
original value: same version, same command-or-reply, same address type,
same host text and port, and for ClientGreeting the same stored count
and method sequence. -/
theorem claim1_decode_encode_round_trip :
    (∀ (m : Message) (bs : List Nat), m.wf → m.to_bytes = .ok bs →
      Message.from_stream m.is_request bs = .ok (m, [])) ∧
    (∀ (g : ClientGreeting) (bs : List Nat), g.wf → g.to_bytes = .ok bs →
      ClientGreeting.from_stream bs = .ok (g, [])) ∧
    (∀ g : ServerGreeting, ServerGreeting.from_stream g.to_bytes = .ok (g, [])) :=
  ⟨roundTripMessage, roundTripClientGreeting, roundTripServerGreeting⟩

/-- Witness for C1: the round trip evaluated at one concrete message per
address type, a reply-interpreted message, a client greeting and a
server greeting. -/
theorem claim1_witness :
    (Message.mk .SOCKS5 (.inl .CONNECT) .IPV4 [49, 50, 55, 46, 48, 46, 48, 46, 49] 80).wf ∧
    Message.from_stream true [5, 1, 0, 1, 127, 0, 0, 1, 0, 80] =
      .ok (Message.mk .SOCKS5 (.inl .CONNECT) .IPV4 [49, 50, 55, 46, 48, 46, 48, 46, 49] 80, []) ∧
    (Message.mk .SOCKS5 (.inr .SUCCEEDED) .IPV6 [58, 58, 49] 443).wf ∧
    Message.from_stream false
      [5, 0, 0, 4, 0, 0, 0, 0, 0, 0, 0, 0, 0, 0, 0, 0, 0, 0, 0, 1, 1, 187] =
      .ok (Message.mk .SOCKS5 (.inr .SUCCEEDED) .IPV6 [58, 58, 49] 443, []) ∧
    (Message.mk .SOCKS5 (.inl .UDP) .DOMAINNAME
      [108, 111, 99, 97, 108, 104, 111, 115, 116] 443).wf ∧
    Message.from_stream true
      [5, 3, 0, 3, 9, 108, 111, 99, 97, 108, 104, 111, 115, 116, 1, 187] =
      .ok (Message.mk .SOCKS5 (.inl .UDP) .DOMAINNAME
        [108, 111, 99, 97, 108, 104, 111, 115, 116] 443, []) ∧
    (ClientGreeting.mk .SOCKS5 2 [.NO_AUTHENTICATION_REQUIRED, .USERNAME_PASSWORD]).wf ∧
    ClientGreeting.from_stream [5, 2, 0, 2] =
      .ok (ClientGreeting.mk .SOCKS5 2 [.NO_AUTHENTICATION_REQUIRED, .USERNAME_PASSWORD], []) ∧
    ServerGreeting.from_stream [4, 255] =
      .ok (ServerGreeting.mk .SOCKS4 .NO_ACCEPTABLE_METHODS, []) := by
  have w1 : (Message.mk .SOCKS5 (.inl .CONNECT) .IPV4
      [49, 50, 55, 46, 48, 46, 48, 46, 49] 80).wf :=
    ⟨⟨[127, 0, 0, 1], rfl, rfl⟩, by decide⟩
  have w2 : (Message.mk .SOCKS5 (.inr .SUCCEEDED) .IPV6 [58, 58, 49] 443).wf :=
    ⟨⟨[0, 0, 0, 0, 0, 0, 0, 0, 0, 0, 0, 0, 0, 0, 0, 1], rfl, rfl⟩, by decide⟩
  have w3 : (Message.mk .SOCKS5 (.inl .UDP) .DOMAINNAME
      [108, 111, 99, 97, 108, 104, 111, 115, 116] 443).wf :=
    ⟨⟨[108, 111, 99, 97, 108, 104, 111, 115, 116], rfl, rfl, by decide, by decide⟩,
     by decide⟩
  have wg : (ClientGreeting.mk .SOCKS5 2
      [.NO_AUTHENTICATION_REQUIRED, .USERNAME_PASSWORD]).wf :=
    ⟨rfl, by decide, by decide⟩
  exact ⟨w1, claim1_decode_encode_round_trip.1 _ _ w1 rfl,
         w2, claim1_decode_encode_round_trip.1 _ _ w2 rfl,
         w3, claim1_decode_encode_round_trip.1 _ _ w3 rfl,
         wg, claim1_decode_encode_round_trip.2.1 _ _ wg rfl,
         claim1_decode_encode_round_trip.2.2 (ServerGreeting.mk .SOCKS4 .NO_ACCEPTABLE_METHODS)⟩

theorem finishMsg_fields {ver : VERSION} {msg : Sum CMD REP} {atype : ATYPE}
    {host s : List Nat} {m : Message} {rest : List Nat}
    (h : finishMsg ver msg atype host s = .ok (m, rest)) :
    m.msg = msg ∧ m.atype = atype := by
  unfold finishMsg at h
  split at h
  · exact absurd h (by simp)
  · simp at h
    obtain ⟨hm, _⟩ := h
    rw [← hm]
    exact ⟨rfl, rfl⟩

/-- C10: for every Message successfully decoded from a stream, the
is_request property returns true exactly when the decode was invoked
with the request flag set: a message decoded as a reply reports
is_request false even when its reply-code byte value coincides with a
command value. -/
theorem claim10_is_request_flag :
    ∀ (request : Bool) (s : List Nat) (m : Message) (rest : List Nat),
      Message.from_stream request s = .ok (m, rest) → m.is_request = request := by
  intro request s m rest h
  unfold Message.from_stream at h
  split at h
  · exact Except.noConfusion h
  next hdr s1 hr =>
    obtain ⟨v, msgB, rsv, aty, rfl⟩ := length_eq_four (readAll_eq hr).2
    dsimp only at h
    split at h
    · exact Except.noConfusion h
    next hrsv =>
      split at h
      next ver msg atype hver hmsg hatype =>
        split at h
        next e haddr => exact Except.noConfusion h
        next host s2 haddr =>
          rw [Message.is_request, (finishMsg_fields h).1, msgOf_request hmsg]
      next => exact Except.noConfusion h

theorem finishMsg_len {ver : VERSION} {msg : Sum CMD REP} {atype : ATYPE}
    {host s : List Nat} {m : Message} {rest : List Nat}
    (h : finishMsg ver msg atype host s = .ok (m, rest)) :
    s.length = 2 + rest.length := by
  unfold finishMsg at h
  cases hr : readAll 2 s with
  | none => rw [hr] at h; exact Except.noConfusion h
  | some p =>
    obtain ⟨pb, r⟩ := p
    rw [hr] at h
    obtain ⟨hs, hl⟩ := readAll_eq hr
    simp at h
    obtain ⟨_, hrr⟩ := h
    subst hrr
    rw [hs]
    simp [hl]

theorem readAddr_len_ipv4 {s host s2 : List Nat}
    (h : readAddr .IPV4 s = .ok (host, s2)) : s.length = 4 + s2.length := by
  unfold readAddr at h
  dsimp only at h
  cases hr : readAll 4 s with
  | none => rw [hr] at h; exact Except.noConfusion h
  | some p =>
    obtain ⟨ab, r⟩ := p
    rw [hr] at h
    simp at h
    obtain ⟨_, hr2⟩ := h
    subst hr2
    obtain ⟨hs, hl⟩ := readAll_eq hr
    rw [hs]
    simp [hl]

theorem readAddr_len_ipv6 {s host s2 : List Nat}
    (h : readAddr .IPV6 s = .ok (host, s2)) : s.length = 16 + s2.length := by
  unfold readAddr at h
  dsimp only at h
  cases hr : readAll 16 s with
  | none => rw [hr] at h; exact Except.noConfusion h
  | some p =>
    obtain ⟨ab, r⟩ := p
    rw [hr] at h
    simp at h
    obtain ⟨_, hr2⟩ := h
    subst hr2
    obtain ⟨hs, hl⟩ := readAll_eq hr
    rw [hs]
    simp [hl]

theorem readAddr_len_domain {s host s2 : List Nat}
    (h : readAddr .DOMAINNAME s = .ok (host, s2)) :
    ∃ L, s.head? = some L ∧ s.length = 1 + L + s2.length := by
  unfold readAddr at h
  dsimp only at h
  cases h1 : readAll 1 s with
  | none => rw [h1] at h; exact Except.noConfusion h
  | some p =>
    obtain ⟨alenL, sa⟩ := p
    rw [h1] at h
    obtain ⟨hs, hl⟩ := readAll_eq h1
    match alenL, hl with
    | [L], _ =>
      dsimp only at h
      cases h2 : readAll (([L] : List Nat).headD 0) sa with
      | none => rw [h2] at h; exact Except.noConfusion h
      | some q =>
        obtain ⟨hb, sb⟩ := q
        rw [h2] at h
        dsimp only at h
        obtain ⟨hsa, hlb⟩ := readAll_eq h2
        cases hd : utf8Decode hb with
        | none => rw [hd] at h; exact Except.noConfusion h
        | some hostd =>
          rw [hd] at h
          simp at h
          obtain ⟨_, hs2⟩ := h
          subst hs2
          refine ⟨L, ?_, ?_⟩
          · rw [hs]; rfl
          · rw [hs, hsa]
            simp [List.headD] at hlb ⊢
            omega

/-- C5: for every RelayMessage decode that succeeds, the bytes consumed
from the stream are exactly the four header bytes plus: four address
bytes and two port bytes for IPV4; sixteen plus two for IPV6; and one
plus L plus two for DOMAINNAME, where L is the value of the length byte
(the fifth byte of the stream) read first. -/
theorem claim5_exact_consumption :
    ∀ (request : Bool) (s : List Nat) (m : Message) (rest : List Nat),
      Message.from_stream request s = .ok (m, rest) →
      (m.atype = .IPV4 → s.length = 10 + rest.length) ∧
      (m.atype = .IPV6 → s.length = 22 + rest.length) ∧
      (m.atype = .DOMAINNAME →
        ∃ L, s[4]? = some L ∧ s.length = 7 + L + rest.length) := by
  intro request s m rest h
  unfold Message.from_stream at h
  split at h
  · exact Except.noConfusion h
  next hdr s1 hr =>
    obtain ⟨v, msgB, rsv, aty, rfl⟩ := length_eq_four (readAll_eq hr).2
    obtain ⟨hs, _⟩ := readAll_eq hr
    dsimp only at h
    split at h
    · exact Except.noConfusion h
    next hrsv =>
      split at h
      next ver msg atype hver hmsg hatype =>
        split at h
        next e haddr => exact Except.noConfusion h
        next host s2 haddr =>
          have hma : m.atype = atype := (finishMsg_fields h).2
          have hfin : s2.length = 2 + rest.length := finishMsg_len h
          subst hs
          cases atype
          case IPV4 =>
            have hlen := readAddr_len_ipv4 haddr
            refine ⟨fun _ => ?_, fun hh => ?_, fun hh => ?_⟩
            · simp
              omega
            · rw [hma] at hh
              exact absurd hh (by simp)
            · rw [hma] at hh
              exact absurd hh (by simp)
          case IPV6 =>
            have hlen := readAddr_len_ipv6 haddr
            refine ⟨fun hh => ?_, fun _ => ?_, fun hh => ?_⟩
            · rw [hma] at hh
              exact absurd hh (by simp)
            · simp
              omega
            · rw [hma] at hh
              exact absurd hh (by simp)
          case DOMAINNAME =>
            obtain ⟨L, hL, hlen⟩ := readAddr_len_domain haddr
            refine ⟨fun hh => ?_, fun hh => ?_, fun _ => ⟨L, ?_, ?_⟩⟩
            · rw [hma] at hh
              exact absurd hh (by simp)
            · rw [hma] at hh
              exact absurd hh (by simp)
            · cases s1 with
              | nil => simp at hL
              | cons a t =>
                simp at hL
                rw [List.getElem?_append_right (by simp)]
                simp [hL]
            · simp
              omega
      next => exact Except.noConfusion h

/-- C4: for every RelayMessage byte stream whose reserved byte (third
header byte) is any value other than zero, decoding fails with a
ProtocolError carrying GENERAL_SOCKS_SERVER_FAILURE, regardless of the
remaining bytes of the message, under either interpretation flag. -/
theorem claim4_reserved_byte_rejected (request : Bool) (b0 b1 b2 b3 : Nat) (rest : List Nat)
    (h : b2 ≠ 0) :
    Message.from_stream request (b0 :: b1 :: b2 :: b3 :: rest) =
      .error (.proxyError .GENERAL_SOCKS_SERVER_FAILURE) := by
  have h4 : readAll 4 (b0 :: b1 :: b2 :: b3 :: rest) =
      some ([b0, b1, b2, b3], rest) := rfl
  simp only [Message.from_stream, h4]
  rw [if_pos h]

/-- C7: decoding 05 01 00 01 7F 00 00 01 00 50 as a request yields
(SOCKS5, CONNECT, IPV4, 127.0.0.1, 80); decoding 05 03 00 03 09
6C 6F 63 61 6C 68 6F 73 74 01 BB as a request yields (SOCKS5, command
byte 03 which is UDP, DOMAINNAME, localhost, 443); and decoding any
stream beginning 05 01 01 01 (reserved byte 01) fails. -/
theorem claim7_example_vectors :
    Message.from_stream true [0x05, 0x01, 0x00, 0x01, 0x7F, 0x00, 0x00, 0x01, 0x00, 0x50] =
      .ok (Message.mk .SOCKS5 (.inl .CONNECT) .IPV4
        [49, 50, 55, 46, 48, 46, 48, 46, 49] 80, []) ∧
    Message.from_stream true [0x05, 0x03, 0x00, 0x03, 0x09, 0x6C, 0x6F, 0x63,
        0x61, 0x6C, 0x68, 0x6F, 0x73, 0x74, 0x01, 0xBB] =
      .ok (Message.mk .SOCKS5 (.inl .UDP) .DOMAINNAME
        [108, 111, 99, 97, 108, 104, 111, 115, 116] 443, []) ∧
    ∀ rest : List Nat,
      Message.from_stream true (0x05 :: 0x01 :: 0x01 :: 0x01 :: rest) =
        .error (.proxyError .GENERAL_SOCKS_SERVER_FAILURE) := by
  refine ⟨by rfl, by rfl, ?_⟩
  intro rest
  have h4 : readAll 4 (5 :: 1 :: 1 :: 1 :: rest) = some ([5, 1, 1, 1], rest) := rfl
  simp only [Message.from_stream, h4]
  simp

/-- Witness for C4: the reserved-byte rejection evaluated on the header
05 01 01 01. -/
theorem claim4_witness :
    (1 ≠ 0) ∧
    Message.from_stream true [5, 1, 1, 1] =
      .error (.proxyError .GENERAL_SOCKS_SERVER_FAILURE) :=
  ⟨by decide, claim4_reserved_byte_rejected true 5 1 1 1 [] (by decide)⟩

/-- Witness for C5: the consumption count evaluated on a concrete
domain-name request that decodes successfully. -/
theorem claim5_witness :
    Message.from_stream true [5, 3, 0, 3, 9, 108, 111, 99, 97, 108, 104, 111,
        115, 116, 1, 187] =
      .ok (Message.mk .SOCKS5 (.inl .UDP) .DOMAINNAME
        [108, 111, 99, 97, 108, 104, 111, 115, 116] 443, []) ∧
    (((Message.mk .SOCKS5 (.inl .UDP) .DOMAINNAME
        [108, 111, 99, 97, 108, 104, 111, 115, 116] 443).atype = .IPV4 →
      ([5, 3, 0, 3, 9, 108, 111, 99, 97, 108, 104, 111, 115, 116, 1, 187] :
        List Nat).length = 10 + ([] : List Nat).length) ∧
     ((Message.mk .SOCKS5 (.inl .UDP) .DOMAINNAME
        [108, 111, 99, 97, 108, 104, 111, 115, 116] 443).atype = .IPV6 →
      ([5, 3, 0, 3, 9, 108, 111, 99, 97, 108, 104, 111, 115, 116, 1, 187] :
        List Nat).length = 22 + ([] : List Nat).length) ∧
     ((Message.mk .SOCKS5 (.inl .UDP) .DOMAINNAME
        [108, 111, 99, 97, 108, 104, 111, 115, 116] 443).atype = .DOMAINNAME →
      ∃ L, ([5, 3, 0, 3, 9, 108, 111, 99, 97, 108, 104, 111, 115, 116, 1, 187] :
        List Nat)[4]? = some L ∧
        ([5, 3, 0, 3, 9, 108, 111, 99, 97, 108, 104, 111, 115, 116, 1, 187] :
          List Nat).length = 7 + L + ([] : List Nat).length)) :=
  ⟨rfl, claim5_exact_consumption true _ _ [] rfl⟩

/-- Witness for C10: a reply whose reply-code byte 01 coincides with the
CONNECT command value still reports is_request false. -/
theorem claim10_witness :
    Message.from_stream false [5, 1, 0, 1, 127, 0, 0, 1, 0, 80] =
      .ok (Message.mk .SOCKS5 (.inr .GENERAL_SOCKS_SERVER_FAILURE) .IPV4
        [49, 50, 55, 46, 48, 46, 48, 46, 49] 80, []) ∧
    (Message.mk .SOCKS5 (.inr .GENERAL_SOCKS_SERVER_FAILURE) .IPV4
        [49, 50, 55, 46, 48, 46, 48, 46, 49] 80).is_request = false :=
  ⟨rfl, claim10_is_request_flag false [5, 1, 0, 1, 127, 0, 0, 1, 0, 80] _ [] rfl⟩

theorem convertAll_method_none {pre post : List Nat} {b : Nat}
    (hb : METHOD.ofValue b = none) :
    convertAll METHOD.ofValue (pre ++ b :: post) = none := by
  induction pre with
  | nil => simp [convertAll, hb]
  | cons x t ih =>
    rw [List.cons_append]
    cases hm : METHOD.ofValue x with
    | none => simp [convertAll, hm]
    | some y => simp [convertAll, hm, ih]

/-- C2 (amended): the count byte written by ClientGreeting.to_bytes is
the stored nmethods field, guarded by the assert: whenever encoding
succeeds, the emitted byte list starts with the version byte and a count
byte equal to the length of the method sequence, followed by one byte
per method; and whenever the stored count differs from the sequence
length, encoding raises AssertionError and emits nothing. -/
theorem claim2_emitted_count :
    (∀ (g : ClientGreeting) (bs : List Nat), g.to_bytes = .ok bs →
      bs = g.ver.value :: g.methods.length :: g.methods.map METHOD.value) ∧
    (∀ g : ClientGreeting, g.nmethods ≠ g.methods.length →
      g.to_bytes = .error .assertionError) := by
  constructor
  · intro g bs h
    unfold ClientGreeting.to_bytes at h
    split at h
    · exact Except.noConfusion h
    next hcond =>
      rw [not_not] at hcond
      split at h
      · simp at h
        rw [← h, hcond]
      · exact Except.noConfusion h
  · intro g hne
    unfold ClientGreeting.to_bytes
    rw [if_pos hne]

/-- C3 (amended): decoding fails for every byte outside a defined
enumeration, but not with a ProtocolError: the RelayMessage decoder
fails with the AttributeError raised by evaluating e.message on the
caught ValueError (socks.py line 110, a Python 3 incompatibility), and
the greeting decoders, whose conversions are unwrapped, fail with the
plain ValueError itself; in particular version byte 06 fails for all
three message types. -/
theorem claim3_enum_failure_kinds :
    (∀ (request : Bool) (v c a : Nat) (rest : List Nat),
      VERSION.ofValue v = none ∨ msgOf request c = none ∨
        ATYPE.ofValue a = none →
      Message.from_stream request (v :: c :: 0 :: a :: rest) =
        .error .attributeError) ∧
    (∀ (v : Nat) (ms rest : List Nat), VERSION.ofValue v = none →
      ClientGreeting.from_stream (v :: ms.length :: (ms ++ rest)) =
        .error .valueError) ∧
    (∀ (v b : Nat) (pre post rest : List Nat), METHOD.ofValue b = none →
      ClientGreeting.from_stream
        (v :: (pre ++ b :: post).length :: ((pre ++ b :: post) ++ rest)) =
        .error .valueError) ∧
    (∀ (v mth : Nat) (rest : List Nat),
      VERSION.ofValue v = none ∨ METHOD.ofValue mth = none →
      ServerGreeting.from_stream (v :: mth :: rest) = .error .valueError) := by
  refine ⟨?_, ?_, ?_, ?_⟩
  · intro request v c a rest hnone
    have h4 : readAll 4 (v :: c :: 0 :: a :: rest) = some ([v, c, 0, a], rest) := rfl
    simp only [Message.from_stream, h4]
    simp only [ne_eq, not_true_eq_false, if_false, reduceIte]
    rcases hnone with h | h | h
    · rw [h]
    · rw [h]
      cases VERSION.ofValue v <;> rfl
    · rw [h]
      cases VERSION.ofValue v <;> cases msgOf request c <;> rfl
  · intro v ms rest hv
    have h2 : readAll 2 (v :: ms.length :: (ms ++ rest)) =
        some ([v, ms.length], ms ++ rest) := rfl
    simp only [ClientGreeting.from_stream, h2, readAll_exact ms rest rfl, hv]
  · intro v b pre post rest hb
    have h2 : readAll 2 (v :: (pre ++ b :: post).length :: ((pre ++ b :: post) ++ rest)) =
        some ([v, (pre ++ b :: post).length], (pre ++ b :: post) ++ rest) := rfl
    simp only [ClientGreeting.from_stream, h2,
      readAll_exact (pre ++ b :: post) rest rfl, convertAll_method_none hb]
    cases VERSION.ofValue v <;> rfl
  · intro v mth rest hnone
    have h2 : readAll 2 (v :: mth :: rest) = some ([v, mth], rest) := rfl
    simp only [ServerGreeting.from_stream, h2]
    rcases hnone with h | h
    · rw [h]
    · rw [h]
      cases VERSION.ofValue v <;> rfl

/-- Counterexample for C2 as stated: a greeting constructed with stored
count 2 and one method does not emit a count byte equal to the sequence
length; its encoding is an AssertionError, not the byte string 05 01 00
that the claim promises. -/
theorem claim2_counterexample :
    ClientGreeting.to_bytes
      (ClientGreeting.mk .SOCKS5 2 [.NO_AUTHENTICATION_REQUIRED]) =
      .error .assertionError ∧
    ClientGreeting.to_bytes
      (ClientGreeting.mk .SOCKS5 2 [.NO_AUTHENTICATION_REQUIRED]) ≠
      .ok [5, 1, 0] :=
  ⟨rfl, fun h => Except.noConfusion h⟩

/-- Witness for C2 (amended): a consistent greeting emits its sequence
length as the count byte, and an inconsistent one fails the assert. -/
theorem claim2_witness :
    ClientGreeting.to_bytes (ClientGreeting.mk .SOCKS5 1 [.GSSAPI]) =
      .ok [5, 1, 1] ∧
    ([5, 1, 1] : List Nat) =
      (ClientGreeting.mk .SOCKS5 1 [.GSSAPI]).ver.value ::
      (ClientGreeting.mk .SOCKS5 1 [.GSSAPI]).methods.length ::
      (ClientGreeting.mk .SOCKS5 1 [.GSSAPI]).methods.map METHOD.value ∧
    ((ClientGreeting.mk .SOCKS5 2 [.GSSAPI]).nmethods ≠
      (ClientGreeting.mk .SOCKS5 2 [.GSSAPI]).methods.length) ∧
    ClientGreeting.to_bytes (ClientGreeting.mk .SOCKS5 2 [.GSSAPI]) =
      .error .assertionError :=
  ⟨rfl, claim2_emitted_count.1 (ClientGreeting.mk .SOCKS5 1 [.GSSAPI]) [5, 1, 1] rfl,
   by decide, claim2_emitted_count.2 (ClientGreeting.mk .SOCKS5 2 [.GSSAPI]) (by decide)⟩

/-- Counterexample for C3 as stated: version byte 06 makes the client
greeting decoder fail, but with a plain ValueError, which is not a
ProtocolError carrying GENERAL_SOCKS_SERVER_FAILURE. -/
theorem claim3_counterexample :
    ClientGreeting.from_stream [6, 0] = .error .valueError ∧
    (Except.error PyErr.valueError :
      Except PyErr (ClientGreeting × List Nat)) ≠
      .error (.proxyError .GENERAL_SOCKS_SERVER_FAILURE) :=
  ⟨rfl, by simp⟩

/-- Witness for C3 (amended): undefined version byte 06 for all three
decoders and an undefined method byte 09 for the client greeting. -/
theorem claim3_witness :
    (VERSION.ofValue 6 = none ∨ msgOf true 1 = none ∨ ATYPE.ofValue 1 = none) ∧
    Message.from_stream true [6, 1, 0, 1] = .error .attributeError ∧
    VERSION.ofValue 6 = none ∧
    ClientGreeting.from_stream [6, 0] = .error .valueError ∧
    METHOD.ofValue 9 = none ∧
    ClientGreeting.from_stream [5, 1, 9] = .error .valueError ∧
    (VERSION.ofValue 6 = none ∨ METHOD.ofValue 0 = none) ∧
    ServerGreeting.from_stream [6, 0] = .error .valueError :=
  ⟨Or.inl rfl, claim3_enum_failure_kinds.1 true 6 1 1 [] (Or.inl rfl),
   rfl, claim3_enum_failure_kinds.2.1 6 [] [] rfl,
   rfl, claim3_enum_failure_kinds.2.2.1 5 9 [] [] [] rfl,
   Or.inl rfl, claim3_enum_failure_kinds.2.2.2 6 0 [] (Or.inl rfl)⟩

/-- C6: for a DOMAIN_NAME message whose host text UTF-8 encodes, the
length byte emitted by encode equals the UTF-8 byte length of the host
and is followed by exactly those bytes; when that length exceeds 255,
encode fails with struct.error rather than silently wrapping the length
byte. -/
theorem claim6_domain_length_byte :
    ∀ (m : Message) (enc : List Nat), m.atype = .DOMAINNAME →
      utf8Encode m.host = some enc →
      ((enc.length ≤ 255 → m.port < 65536 →
        m.to_bytes = .ok ([m.ver.value, msgValue m.msg, 0,
          ATYPE.value .DOMAINNAME] ++
          enc.length :: enc ++ [m.port / 256, m.port % 256])) ∧
       (255 < enc.length → m.to_bytes = .error .structError)) := by
  intro m enc hat hence
  obtain ⟨ver, msg, atype, host, port⟩ := m
  replace hat : atype = .DOMAINNAME := hat
  subst hat
  replace hence : utf8Encode host = some enc := hence
  constructor
  · intro h255 hport
    simp only [Message.to_bytes, hence, if_pos h255]
    rw [if_pos (show port < 65536 from hport)]
  · intro hbig
    simp only [Message.to_bytes, hence]
    rw [if_neg (by omega)]

/-- Data-model invariant of a relay message as used by C8: a sixteen-bit
port, and a host that the encoder can turn into wire bytes: a domain
name of one to 255 UTF-8 bytes, or an IPv4 or IPv6 text that the
ipaddress constructor parses. -/
def Message.invariant (m : Message) : Prop :=
  m.port < 65536 ∧
  match m.atype with
  | .DOMAINNAME =>
    ∃ enc, utf8Encode m.host = some enc ∧ 1 ≤ enc.length ∧ enc.length ≤ 255
  | .IPV4 => ∃ ab, ipv4Parse m.host = some ab
  | .IPV6 => ∃ ab, ipv6Parse m.host = some ab

/-- C8: encode never fails on a value satisfying the data-model
invariants: Message.to_bytes succeeds for every invariant-satisfying
message, ClientGreeting.to_bytes succeeds (the assert never fires) for
every greeting whose stored count equals its method-sequence length of
one to 255, and ServerGreeting.to_bytes is a total pure function. -/
theorem claim8_encode_total :
    (∀ m : Message, m.invariant → ∃ bs, m.to_bytes = .ok bs) ∧
    (∀ g : ClientGreeting, g.wf → ∃ bs, g.to_bytes = .ok bs) ∧
    (∀ sg : ServerGreeting, sg.to_bytes = [sg.ver.value, sg.method.value]) := by
  refine ⟨?_, ?_, fun _ => rfl⟩
  · intro m hinv
    obtain ⟨hport, hrest⟩ := hinv
    obtain ⟨ver, msg, atype, host, port⟩ := m
    replace hport : port < 65536 := hport
    cases atype
    case DOMAINNAME =>
      obtain ⟨enc, hence, hlen1, hlen255⟩ := hrest
      replace hence : utf8Encode host = some enc := hence
      refine ⟨[VERSION.value ver, msgValue msg, 0, ATYPE.value .DOMAINNAME] ++
        enc.length :: enc ++ [port / 256, port % 256], ?_⟩
      simp only [Message.to_bytes, hence, if_pos hlen255]
      rw [if_pos (show port < 65536 from hport)]
    case IPV4 =>
      obtain ⟨ab, hparse⟩ := hrest
      replace hparse : ipv4Parse host = some ab := hparse
      refine ⟨[VERSION.value ver, msgValue msg, 0, ATYPE.value .IPV4] ++
        ab ++ [port / 256, port % 256], ?_⟩
      simp only [Message.to_bytes, hparse]
      rw [if_pos (show port < 65536 from hport)]
    case IPV6 =>
      obtain ⟨ab, hparse⟩ := hrest
      replace hparse : ipv6Parse host = some ab := hparse
      refine ⟨[VERSION.value ver, msgValue msg, 0, ATYPE.value .IPV6] ++
        ab ++ [port / 256, port % 256], ?_⟩
      simp only [Message.to_bytes, hparse]
      rw [if_pos (show port < 65536 from hport)]
  · intro g hwf
    obtain ⟨hn, hlen1, hlen255⟩ := hwf
    refine ⟨g.ver.value :: g.nmethods :: g.methods.map METHOD.value, ?_⟩
    unfold ClientGreeting.to_bytes
    rw [if_neg (by omega), if_pos (by omega)]

/-- Witness for C6 at the two-byte host ex. -/
theorem claim6_witness :
    (Message.mk .SOCKS5 (.inl .CONNECT) .DOMAINNAME [101, 120] 80).atype =
      .DOMAINNAME ∧
    utf8Encode (Message.mk .SOCKS5 (.inl .CONNECT) .DOMAINNAME
      [101, 120] 80).host = some [101, 120] ∧
    ((([101, 120] : List Nat).length ≤ 255 →
      (Message.mk .SOCKS5 (.inl .CONNECT) .DOMAINNAME [101, 120] 80).port <
        65536 →
      (Message.mk .SOCKS5 (.inl .CONNECT) .DOMAINNAME [101, 120] 80).to_bytes =
        .ok ([(Message.mk .SOCKS5 (.inl .CONNECT) .DOMAINNAME
                [101, 120] 80).ver.value,
              msgValue (Message.mk .SOCKS5 (.inl .CONNECT) .DOMAINNAME
                [101, 120] 80).msg,
              0, ATYPE.value .DOMAINNAME] ++
          ([101, 120] : List Nat).length :: [101, 120] ++
          [(Message.mk .SOCKS5 (.inl .CONNECT) .DOMAINNAME
              [101, 120] 80).port / 256,
           (Message.mk .SOCKS5 (.inl .CONNECT) .DOMAINNAME
              [101, 120] 80).port % 256])) ∧
     (255 < ([101, 120] : List Nat).length →
      (Message.mk .SOCKS5 (.inl .CONNECT) .DOMAINNAME [101, 120] 80).to_bytes =
        .error .structError)) :=
  ⟨rfl, rfl, claim6_domain_length_byte _ _ rfl rfl⟩

/-- Witness for C8 at a concrete IPv4 message and a concrete greeting. -/
theorem claim8_witness :
    (Message.mk .SOCKS5 (.inl .BIND) .IPV4
      [49, 46, 50, 46, 51, 46, 52] 1080).invariant ∧
    (∃ bs, (Message.mk .SOCKS5 (.inl .BIND) .IPV4
      [49, 46, 50, 46, 51, 46, 52] 1080).to_bytes = .ok bs) ∧
    (ClientGreeting.mk .SOCKS5 1 [.NO_AUTHENTICATION_REQUIRED]).wf ∧
    (∃ bs, (ClientGreeting.mk .SOCKS5 1
      [.NO_AUTHENTICATION_REQUIRED]).to_bytes = .ok bs) := by
  have hinv : (Message.mk .SOCKS5 (.inl .BIND) .IPV4
      [49, 46, 50, 46, 51, 46, 52] 1080).invariant :=
    ⟨by decide, ⟨[1, 2, 3, 4], rfl⟩⟩
  have hwf : (ClientGreeting.mk .SOCKS5 1 [.NO_AUTHENTICATION_REQUIRED]).wf :=
    ⟨rfl, by decide, by decide⟩
  exact ⟨hinv, claim8_encode_total.1 _ hinv, hwf, claim8_encode_total.2.1 _ hwf⟩

theorem atbashByte_invol {b : Nat} (h : b < 256) :
    atbashByte (atbashByte b) = b := by
  unfold atbashByte
  omega

theorem atbash_rt (d : List Nat) (h : ∀ b ∈ d, b < 256) :
    AtBash.decode (AtBash.encode d) = d := by
  unfold AtBash.decode AtBash.encode
  rw [List.map_map]
  induction d with
  | nil => rfl
  | cons b t ih =>
    simp only [List.map_cons]
    rw [Function.comp_apply, atbashByte_invol (h b (by simp))]
    rw [ih (fun x hx => h x (by simp [hx]))]

theorem hexUpperVal_hexUpper : ∀ v, v < 16 → hexUpperVal (hexUpper v) = some v := by
  decide

theorem base16_rt : ∀ (d : List Nat), (∀ b ∈ d, b < 256) →
    Base16.decode (Base16.encode d) = some d
  | [], _ => rfl
  | b :: t, h => by
    have hb : b < 256 := h b (by simp)
    have ht := base16_rt t (fun x hx => h x (by simp [hx]))
    simp only [Base16.encode, Base16.decode,
      hexUpperVal_hexUpper (b / 16) (by omega),
      hexUpperVal_hexUpper (b % 16) (by omega), ht]
    have : 16 * (b / 16) + b % 16 = b := by omega
    rw [this]

theorem take_len_append {a : Type} (xs ys : List a) :
    (xs ++ ys).take xs.length = xs := by
  induction xs with
  | nil => rfl
  | cons x t ih => simp [ih]

theorem xxDechunk_chunks (table : List Nat)
    (htab : ∀ v, v < 64 → tableIndex table (table.getD v 0) = some v) :
    ∀ d : List Nat, (∀ b ∈ d, b < 256) → d.length % 3 = 0 →
      xxDechunk table (xxChunks table d) = some d
  | [], _, _ => rfl
  | [b1], _, hl => by simp at hl
  | [b1, b2], _, hl => by simp at hl
  | b1 :: b2 :: b3 :: rest, hb, hl => by
    have h1 : b1 < 256 := hb b1 (by simp)
    have h2 : b2 < 256 := hb b2 (by simp)
    have h3 : b3 < 256 := hb b3 (by simp)
    have hl3 : rest.length % 3 = 0 := by
      simp only [List.length_cons] at hl
      omega
    have ih := xxDechunk_chunks table htab rest
      (fun x hx => hb x (by simp [hx])) hl3
    simp only [xxChunks, xxDechunk, htab (b1 / 4) (by omega),
      htab (b1 % 4 * 16 + b2 / 16) (by omega),
      htab (b2 % 16 * 4 + b3 / 64) (by omega), htab (b3 % 64) (by omega), ih]
    have e1 : b1 / 4 * 4 + (b1 % 4 * 16 + b2 / 16) / 16 = b1 := by omega
    have e2 : (b1 % 4 * 16 + b2 / 16) % 16 * 16 + (b2 % 16 * 4 + b3 / 64) / 4 = b2 := by
      omega
    have e3 : (b2 % 16 * 4 + b3 / 64) % 4 * 64 + b3 % 64 = b3 := by omega
    rw [e1, e2, e3]

theorem xxcodec_rt (table : List Nat)
    (htab : ∀ v, v < 64 → tableIndex table (table.getD v 0) = some v)
    (d : List Nat) (h : ∀ b ∈ d, b < 256) :
    xxDecode table (xxEncode table d) = some d := by
  unfold xxEncode xxDecode
  have hpad : (d ++ List.replicate (xxPad d.length) 0).length % 3 = 0 := by
    simp [xxPad]
    omega
  have hb : ∀ b ∈ d ++ List.replicate (xxPad d.length) 0, b < 256 := by
    intro b hbmem
    rcases List.mem_append.mp hbmem with hm | hm
    · exact h b hm
    · have := List.eq_of_mem_replicate hm
      omega
  dsimp only
  rw [xxDechunk_chunks table htab _ hb hpad]
  dsimp only
  have hlen : (d ++ List.replicate (xxPad d.length) 0).length - xxPad d.length =
      d.length := by
    simp
  rw [hlen, take_len_append]

theorem xxTable_index :
    ∀ v, v < 64 → tableIndex XXencode.table (XXencode.table.getD v 0) = some v := by
  decide

theorem uuTable_index :
    ∀ v, v < 64 → tableIndex UUencode.table (UUencode.table.getD v 0) = some v := by
  decide

theorem b64_index : ∀ v, v < 64 → tableIndex b64Alphabet (b64Char v) = some v := by
  decide

theorem b64Char_ne_pad : ∀ v, v < 64 → b64Char v ≠ 61 := by
  decide

theorem base64_rt : ∀ (d : List Nat), (∀ b ∈ d, b < 256) →
    Base64.decode (Base64.encode d) = some d
  | [], _ => rfl
  | [b1], h => by
    have h1 : b1 < 256 := h b1 (by simp)
    simp only [Base64.encode, Base64.decode, b64_index (b1 / 4) (by omega),
      b64_index (b1 % 4 * 16) (by omega)]
    have e1 : b1 / 4 * 4 + b1 % 4 * 16 / 16 = b1 := by omega
    rw [e1]
    simp
  | [b1, b2], h => by
    have h1 : b1 < 256 := h b1 (by simp)
    have h2 : b2 < 256 := h b2 (by simp)
    simp only [Base64.encode, Base64.decode, b64_index (b1 / 4) (by omega),
      b64_index (b1 % 4 * 16 + b2 / 16) (by omega),
      b64_index (b2 % 16 * 4) (by omega)]
    rw [if_neg (b64Char_ne_pad (b2 % 16 * 4) (by omega))]
    have e1 : b1 / 4 * 4 + (b1 % 4 * 16 + b2 / 16) / 16 = b1 := by omega
    have e2 : (b1 % 4 * 16 + b2 / 16) % 16 * 16 + b2 % 16 * 4 / 4 = b2 := by omega
    rw [e1, e2]
    simp
  | b1 :: b2 :: b3 :: rest, h => by
    have h1 : b1 < 256 := h b1 (by simp)
    have h2 : b2 < 256 := h b2 (by simp)
    have h3 : b3 < 256 := h b3 (by simp)
    have ih := base64_rt rest (fun x hx => h x (by simp [hx]))
    simp only [Base64.encode, Base64.decode, b64_index (b1 / 4) (by omega),
      b64_index (b1 % 4 * 16 + b2 / 16) (by omega),
      b64_index (b2 % 16 * 4 + b3 / 64) (by omega),
      b64_index (b3 % 64) (by omega), ih]
    rw [if_neg (b64Char_ne_pad (b2 % 16 * 4 + b3 / 64) (by omega))]
    rw [if_neg (b64Char_ne_pad (b3 % 64) (by omega))]
    have e1 : b1 / 4 * 4 + (b1 % 4 * 16 + b2 / 16) / 16 = b1 := by omega
    have e2 : (b1 % 4 * 16 + b2 / 16) % 16 * 16 +
        (b2 % 16 * 4 + b3 / 64) / 4 = b2 := by omega
    have e3 : (b2 % 16 * 4 + b3 / 64) % 4 * 64 + b3 % 64 = b3 := by omega
    rw [e1, e2, e3]

theorem b32_index : ∀ v, v < 32 → tableIndex b32Alphabet (b32Char v) = some v := by
  decide

theorem b32Char_ne_pad : ∀ v, v < 32 → b32Char v ≠ 61 := by
  decide

theorem base32_rt : ∀ (d : List Nat), (∀ b ∈ d, b < 256) →
    Base32.decode (Base32.encode d) = some d
  | [], _ => rfl
  | [b1], h => by
    have h1 : b1 < 256 := h b1 (by simp)
    simp only [Base32.encode, Base32.decode, b32_index (b1 / 8) (by omega),
      b32_index (b1 % 8 * 4) (by omega)]
    have e1 : b1 / 8 * 8 + b1 % 8 * 4 / 4 = b1 := by omega
    rw [e1]
    simp
  | [b1, b2], h => by
    have h1 : b1 < 256 := h b1 (by simp)
    have h2 : b2 < 256 := h b2 (by simp)
    simp only [Base32.encode, Base32.decode, b32_index (b1 / 8) (by omega),
      b32_index (b1 % 8 * 4 + b2 / 64) (by omega),
      b32_index (b2 / 2 % 32) (by omega),
      b32_index (b2 % 2 * 16) (by omega)]
    rw [if_neg (b32Char_ne_pad (b2 / 2 % 32) (by omega))]
    have e1 : b1 / 8 * 8 + (b1 % 8 * 4 + b2 / 64) / 4 = b1 := by omega
    have e2 : (b1 % 8 * 4 + b2 / 64) % 4 * 64 + b2 / 2 % 32 * 2 +
        b2 % 2 * 16 / 16 = b2 := by omega
    rw [e1, e2]
    simp
  | [b1, b2, b3], h => by
    have h1 : b1 < 256 := h b1 (by simp)
    have h2 : b2 < 256 := h b2 (by simp)
    have h3 : b3 < 256 := h b3 (by simp)
    simp only [Base32.encode, Base32.decode, b32_index (b1 / 8) (by omega),
      b32_index (b1 % 8 * 4 + b2 / 64) (by omega),
      b32_index (b2 / 2 % 32) (by omega),
      b32_index (b2 % 2 * 16 + b3 / 16) (by omega),
      b32_index (b3 % 16 * 2) (by omega)]
    rw [if_neg (b32Char_ne_pad (b2 / 2 % 32) (by omega))]
    rw [if_neg (b32Char_ne_pad (b3 % 16 * 2) (by omega))]
    have e1 : b1 / 8 * 8 + (b1 % 8 * 4 + b2 / 64) / 4 = b1 := by omega
    have e2 : (b1 % 8 * 4 + b2 / 64) % 4 * 64 + b2 / 2 % 32 * 2 +
        (b2 % 2 * 16 + b3 / 16) / 16 = b2 := by omega
    have e3 : (b2 % 2 * 16 + b3 / 16) % 16 * 16 + b3 % 16 * 2 / 2 = b3 := by
      omega
    rw [e1, e2, e3]
    simp
  | [b1, b2, b3, b4], h => by
    have h1 : b1 < 256 := h b1 (by simp)
    have h2 : b2 < 256 := h b2 (by simp)
    have h3 : b3 < 256 := h b3 (by simp)
    have h4 : b4 < 256 := h b4 (by simp)
    simp only [Base32.encode, Base32.decode, b32_index (b1 / 8) (by omega),
      b32_index (b1 % 8 * 4 + b2 / 64) (by omega),
      b32_index (b2 / 2 % 32) (by omega),
      b32_index (b2 % 2 * 16 + b3 / 16) (by omega),
      b32_index (b3 % 16 * 2 + b4 / 128) (by omega),
      b32_index (b4 / 4 % 32) (by omega),
      b32_index (b4 % 4 * 8) (by omega)]
    rw [if_neg (b32Char_ne_pad (b2 / 2 % 32) (by omega))]
    rw [if_neg (b32Char_ne_pad (b3 % 16 * 2 + b4 / 128) (by omega))]
    rw [if_neg (b32Char_ne_pad (b4 / 4 % 32) (by omega))]
    have e1 : b1 / 8 * 8 + (b1 % 8 * 4 + b2 / 64) / 4 = b1 := by omega
    have e2 : (b1 % 8 * 4 + b2 / 64) % 4 * 64 + b2 / 2 % 32 * 2 +
        (b2 % 2 * 16 + b3 / 16) / 16 = b2 := by omega
    have e3 : (b2 % 2 * 16 + b3 / 16) % 16 * 16 +
        (b3 % 16 * 2 + b4 / 128) / 2 = b3 := by omega
    have e4 : (b3 % 16 * 2 + b4 / 128) % 2 * 128 + b4 / 4 % 32 * 4 +
        b4 % 4 * 8 / 8 = b4 := by omega
    rw [e1, e2, e3, e4]
    simp
  | b1 :: b2 :: b3 :: b4 :: b5 :: rest, h => by
    have h1 : b1 < 256 := h b1 (by simp)
    have h2 : b2 < 256 := h b2 (by simp)
    have h3 : b3 < 256 := h b3 (by simp)
    have h4 : b4 < 256 := h b4 (by simp)
    have h5 : b5 < 256 := h b5 (by simp)
    have ih := base32_rt rest (fun x hx => h x (by simp [hx]))
    simp only [Base32.encode, Base32.decode, b32_index (b1 / 8) (by omega),
      b32_index (b1 % 8 * 4 + b2 / 64) (by omega),
      b32_index (b2 / 2 % 32) (by omega),
      b32_index (b2 % 2 * 16 + b3 / 16) (by omega),
      b32_index (b3 % 16 * 2 + b4 / 128) (by omega),
      b32_index (b4 / 4 % 32) (by omega),
      b32_index (b4 % 4 * 8 + b5 / 32) (by omega),
      b32_index (b5 % 32) (by omega), ih]
    rw [if_neg (b32Char_ne_pad (b2 / 2 % 32) (by omega))]
    rw [if_neg (b32Char_ne_pad (b3 % 16 * 2 + b4 / 128) (by omega))]
    rw [if_neg (b32Char_ne_pad (b4 / 4 % 32) (by omega))]
    rw [if_neg (b32Char_ne_pad (b5 % 32) (by omega))]
    have e1 : b1 / 8 * 8 + (b1 % 8 * 4 + b2 / 64) / 4 = b1 := by omega
    have e2 : (b1 % 8 * 4 + b2 / 64) % 4 * 64 + b2 / 2 % 32 * 2 +
        (b2 % 2 * 16 + b3 / 16) / 16 = b2 := by omega
    have e3 : (b2 % 2 * 16 + b3 / 16) % 16 * 16 +
        (b3 % 16 * 2 + b4 / 128) / 2 = b3 := by omega
    have e4 : (b3 % 16 * 2 + b4 / 128) % 2 * 128 + b4 / 4 % 32 * 4 +
        (b4 % 4 * 8 + b5 / 32) / 8 = b4 := by omega
    have e5 : (b4 % 4 * 8 + b5 / 32) % 8 * 32 + b5 % 32 = b5 := by omega
    rw [e1, e2, e3, e4, e5]

theorem b85_index : ∀ v, v < 85 → tableIndex b85Alphabet (b85Char v) = some v := by
  decide

theorem b85_tilde : tableIndex b85Alphabet 126 = some 84 := by decide

theorem take_cons4 {a : Type} (x1 x2 x3 x4 : a) (l : List a) (n : Nat) :
    (x1 :: x2 :: x3 :: x4 :: l).take (n + 4) = x1 :: x2 :: x3 :: x4 :: l.take n :=
  rfl

theorem b85Groups_cons {w : Nat} (hw : w < 4294967296) {rest bs : List Nat}
    (hrest : b85Groups rest = some bs) :
    b85Groups (word85 w ++ rest) =
      some ((w / 16777216) :: (w / 65536 % 256) :: (w / 256 % 256) ::
            (w % 256) :: bs) := by
  have hs : word85 w ++ rest =
      b85Char (w / 52200625 % 85) :: b85Char (w / 614125 % 85) ::
      b85Char (w / 7225 % 85) :: b85Char (w / 85 % 85) ::
      b85Char (w % 85) :: rest := rfl
  rw [hs]
  simp only [b85Groups, b85_index (w / 52200625 % 85) (by omega),
    b85_index (w / 614125 % 85) (by omega),
    b85_index (w / 7225 % 85) (by omega),
    b85_index (w / 85 % 85) (by omega),
    b85_index (w % 85) (by omega), hrest]
  have hww : (((w / 52200625 % 85 * 85 + w / 614125 % 85) * 85 +
      w / 7225 % 85) * 85 + w / 85 % 85) * 85 + w % 85 = w := by omega
  rw [hww, if_pos hw]

theorem div85_85 (x : Nat) : x / 85 / 85 = x / 7225 := by
  rw [Nat.div_div_eq_div_mul]

theorem div7225_85 (x : Nat) : x / 7225 / 85 = x / 614125 := by
  rw [Nat.div_div_eq_div_mul]

theorem div614125_85 (x : Nat) : x / 614125 / 85 = x / 52200625 := by
  rw [Nat.div_div_eq_div_mul]

theorem div65536_256 (x : Nat) : x / 65536 / 256 = x / 16777216 := by
  rw [Nat.div_div_eq_div_mul]

theorem div256_256 (x : Nat) : x / 256 / 256 = x / 65536 := by
  rw [Nat.div_div_eq_div_mul]

theorem base85_rt : ∀ (d : List Nat), (∀ b ∈ d, b < 256) →
    Base85.decode (Base85.encode d) = some d
  | [], _ => rfl
  | [b1], h => by
    have h1 : b1 < 256 := h b1 (by simp)
    have hq2 := div7225_85 (b1 * 16777216)
    have hq3 := div614125_85 (b1 * 16777216)
    have he : b1 * 16777216 / 52200625 / 85 = 0 := by omega
    have hw : (((b1 * 16777216 / 52200625 % 85 * 85 +
        b1 * 16777216 / 614125 % 85) * 85 + 84) * 85 + 84) * 85 + 84 =
        614125 * (b1 * 16777216 / 614125) + 614124 := by omega
    unfold Base85.decode
    simp only [Base85.encode, word85, List.take, List.length_cons,
      List.length_nil, List.replicate, List.cons_append, List.nil_append,
      b85Groups, b85_index (b1 * 16777216 / 52200625 % 85) (by omega),
      b85_index (b1 * 16777216 / 614125 % 85) (by omega), b85_tilde]
    split
    next ds hC =>
      split at hC
      next hlt =>
        injection hC with hds
        subst hds
        rw [hw]
        simp
        omega
      next hlt => exact Option.noConfusion hC
    next hC =>
      split at hC
      next hlt => exact Option.noConfusion hC
      next hlt =>
        exfalso
        rw [hw] at hlt
        omega
  | [b1, b2], h => by
    have h1 : b1 < 256 := h b1 (by simp)
    have h2 : b2 < 256 := h b2 (by simp)
    have hq1 := div85_85 (b1 * 16777216 + b2 * 65536)
    have hq2 := div7225_85 (b1 * 16777216 + b2 * 65536)
    have hq3 := div614125_85 (b1 * 16777216 + b2 * 65536)
    have he : (b1 * 16777216 + b2 * 65536) / 52200625 / 85 = 0 := by omega
    have hw : ((((b1 * 16777216 + b2 * 65536) / 52200625 % 85 * 85 +
        (b1 * 16777216 + b2 * 65536) / 614125 % 85) * 85 +
        (b1 * 16777216 + b2 * 65536) / 7225 % 85) * 85 + 84) * 85 + 84 =
        7225 * ((b1 * 16777216 + b2 * 65536) / 7225) + 7224 := by omega
    have hg := div65536_256 (7225 * ((b1 * 16777216 + b2 * 65536) / 7225) + 7224)
    unfold Base85.decode
    simp only [Base85.encode, word85, List.take, List.length_cons,
      List.length_nil, List.replicate, List.cons_append, List.nil_append,
      b85Groups,
      b85_index ((b1 * 16777216 + b2 * 65536) / 52200625 % 85) (by omega),
      b85_index ((b1 * 16777216 + b2 * 65536) / 614125 % 85) (by omega),
      b85_index ((b1 * 16777216 + b2 * 65536) / 7225 % 85) (by omega),
      b85_tilde]
    split
    next ds hC =>
      split at hC
      next hlt =>
        injection hC with hds
        subst hds
        rw [hw]
        clear hq1 hq2 hq3 he hw
        have hA : (7225 * ((b1 * 16777216 + b2 * 65536) / 7225) + 7224) /
            16777216 = b1 := by omega
        have hB : (7225 * ((b1 * 16777216 + b2 * 65536) / 7225) + 7224) /
            65536 % 256 = b2 := by omega
        rw [hA, hB]
        simp
      next hlt => exact Option.noConfusion hC
    next hC =>
      split at hC
      next hlt => exact Option.noConfusion hC
      next hlt =>
        exfalso
        rw [hw] at hlt
        clear hq1 hq2 hq3 he hw
        omega
  | [b1, b2, b3], h => by
    have h1 : b1 < 256 := h b1 (by simp)
    have h2 : b2 < 256 := h b2 (by simp)
    have h3 : b3 < 256 := h b3 (by simp)
    have hq1 := div85_85 (b1 * 16777216 + b2 * 65536 + b3 * 256)
    have hq2 := div7225_85 (b1 * 16777216 + b2 * 65536 + b3 * 256)
    have hq3 := div614125_85 (b1 * 16777216 + b2 * 65536 + b3 * 256)
    have he : (b1 * 16777216 + b2 * 65536 + b3 * 256) / 52200625 / 85 = 0 := by
      omega
    have hw : ((((b1 * 16777216 + b2 * 65536 + b3 * 256) / 52200625 % 85 * 85 +
        (b1 * 16777216 + b2 * 65536 + b3 * 256) / 614125 % 85) * 85 +
        (b1 * 16777216 + b2 * 65536 + b3 * 256) / 7225 % 85) * 85 +
        (b1 * 16777216 + b2 * 65536 + b3 * 256) / 85 % 85) * 85 + 84 =
        85 * ((b1 * 16777216 + b2 * 65536 + b3 * 256) / 85) + 84 := by omega
    have hg1 := div65536_256 (85 * ((b1 * 16777216 + b2 * 65536 + b3 * 256) / 85) + 84)
    have hg2 := div256_256 (85 * ((b1 * 16777216 + b2 * 65536 + b3 * 256) / 85) + 84)
    unfold Base85.decode
    simp only [Base85.encode, word85, List.take, List.length_cons,
      List.length_nil, List.replicate, List.cons_append, List.nil_append,
      b85Groups,
      b85_index ((b1 * 16777216 + b2 * 65536 + b3 * 256) / 52200625 % 85)
        (by omega),
      b85_index ((b1 * 16777216 + b2 * 65536 + b3 * 256) / 614125 % 85)
        (by omega),
      b85_index ((b1 * 16777216 + b2 * 65536 + b3 * 256) / 7225 % 85)
        (by omega),
      b85_index ((b1 * 16777216 + b2 * 65536 + b3 * 256) / 85 % 85)
        (by omega),
      b85_tilde]
    split
    next ds hC =>
      split at hC
      next hlt =>
        injection hC with hds
        subst hds
        rw [hw]
        clear hq1 hq2 hq3 he hw
        have hA : (85 * ((b1 * 16777216 + b2 * 65536 + b3 * 256) / 85) + 84) /
            16777216 = b1 := by omega
        have hB : (85 * ((b1 * 16777216 + b2 * 65536 + b3 * 256) / 85) + 84) /
            65536 % 256 = b2 := by omega
        have hC3 : (85 * ((b1 * 16777216 + b2 * 65536 + b3 * 256) / 85) + 84) /
            256 % 256 = b3 := by omega
        rw [hA, hB, hC3]
        simp
      next hlt => exact Option.noConfusion hC
    next hC =>
      split at hC
      next hlt => exact Option.noConfusion hC
      next hlt =>
        exfalso
        rw [hw] at hlt
        clear hq1 hq2 hq3 he hw
        omega
  | b1 :: b2 :: b3 :: b4 :: rest, h => by
    have h1 : b1 < 256 := h b1 (by simp)
    have h2 : b2 < 256 := h b2 (by simp)
    have h3 : b3 < 256 := h b3 (by simp)
    have h4 : b4 < 256 := h b4 (by simp)
    have ih := base85_rt rest (fun x hx => h x (by simp [hx]))
    unfold Base85.decode at ih ⊢
    dsimp only at ih ⊢
    have henc : Base85.encode (b1 :: b2 :: b3 :: b4 :: rest) =
        word85 (b1 * 16777216 + b2 * 65536 + b3 * 256 + b4) ++
          Base85.encode rest := rfl
    have hlen5 : (Base85.encode (b1 :: b2 :: b3 :: b4 :: rest)).length =
        5 + (Base85.encode rest).length := by
      rw [henc]
      simp only [List.length_append, word85, List.length_cons, List.length_nil]
    have hp : (5 - (Base85.encode (b1 :: b2 :: b3 :: b4 :: rest)).length % 5) %
        5 = (5 - (Base85.encode rest).length % 5) % 5 := by
      omega
    rw [hp, henc, List.append_assoc]
    cases hgr : b85Groups (Base85.encode rest ++
        List.replicate ((5 - (Base85.encode rest).length % 5) % 5) 126) with
    | none =>
      rw [hgr] at ih
      exact Option.noConfusion ih
    | some bs =>
      rw [hgr] at ih
      dsimp only at ih
      injection ih with ihtake
      rw [b85Groups_cons (by omega) hgr]
      dsimp only
      have hmin : rest.length =
          min (bs.length - (5 - (Base85.encode rest).length % 5) % 5)
            bs.length := by
        conv_lhs => rw [← ihtake]
        rw [List.length_take]
      have hple : (5 - (Base85.encode rest).length % 5) % 5 ≤ bs.length := by
        rcases Nat.eq_zero_or_pos rest.length with h0 | hpos
        · obtain rfl : rest = [] := List.length_eq_zero.mp h0
          have hz : (Base85.encode ([] : List Nat)).length = 0 := rfl
          omega
        · omega
      simp only [List.length_cons]
      have harith : bs.length + 1 + 1 + 1 + 1 -
          (5 - (Base85.encode rest).length % 5) % 5 =
          (bs.length - (5 - (Base85.encode rest).length % 5) % 5) + 4 := by
        omega
      rw [harith, take_cons4, ihtake]
      have e1 : (b1 * 16777216 + b2 * 65536 + b3 * 256 + b4) / 16777216 = b1 := by
        omega
      have e2 : (b1 * 16777216 + b2 * 65536 + b3 * 256 + b4) / 65536 % 256 =
          b2 := by omega
      have e3 : (b1 * 16777216 + b2 * 65536 + b3 * 256 + b4) / 256 % 256 =
          b3 := by omega
      have e4 : (b1 * 16777216 + b2 * 65536 + b3 * 256 + b4) % 256 = b4 := by
        omega
      rw [e1, e2, e3, e4]

/-- C9: for every obfuscation codec class of codec.py (Plain, Base64,
Base32, Base16, Base85, XXencode, UUencode, AtBash) and every byte
string d, decoding the encoding of d reproduces d. -/
theorem claim9_codec_round_trips :
    ∀ d : List Nat, (∀ b ∈ d, b < 256) →
      Plain.decode (Plain.encode d) = d ∧
      Base64.decode (Base64.encode d) = some d ∧
      Base32.decode (Base32.encode d) = some d ∧
      Base16.decode (Base16.encode d) = some d ∧
      Base85.decode (Base85.encode d) = some d ∧
      XXencode.decode (XXencode.encode d) = some d ∧
      UUencode.decode (UUencode.encode d) = some d ∧
      AtBash.decode (AtBash.encode d) = d :=
  fun d h =>
    ⟨rfl, base64_rt d h, base32_rt d h, base16_rt d h, base85_rt d h,
     xxcodec_rt XXencode.table xxTable_index d h,
     xxcodec_rt UUencode.table uuTable_index d h, atbash_rt d h⟩

/-- Witness for C9 on a concrete five-byte string. -/
theorem claim9_witness :
    (∀ b ∈ [104, 101, 108, 108, 111], b < 256) ∧
    (Plain.decode (Plain.encode [104, 101, 108, 108, 111]) =
       [104, 101, 108, 108, 111] ∧
     Base64.decode (Base64.encode [104, 101, 108, 108, 111]) =
       some [104, 101, 108, 108, 111] ∧
     Base32.decode (Base32.encode [104, 101, 108, 108, 111]) =
       some [104, 101, 108, 108, 111] ∧
     Base16.decode (Base16.encode [104, 101, 108, 108, 111]) =
       some [104, 101, 108, 108, 111] ∧
     Base85.decode (Base85.encode [104, 101, 108, 108, 111]) =
       some [104, 101, 108, 108, 111] ∧
     XXencode.decode (XXencode.encode [104, 101, 108, 108, 111]) =
       some [104, 101, 108, 108, 111] ∧
     UUencode.decode (UUencode.encode [104, 101, 108, 108, 111]) =
       some [104, 101, 108, 108, 111] ∧
     AtBash.decode (AtBash.encode [104, 101, 108, 108, 111]) =
       [104, 101, 108, 108, 111]) :=
  ⟨by decide, claim9_codec_round_trips [104, 101, 108, 108, 111] (by decide)⟩
